import Mathlib

/-!
Shallow embedding of `writer.go` from the goapng repository (APNG encoder):
binary primitives, the IEEE CRC32, the chunk writer with its sticky error,
the standalone-PNG chunk reader, the frame validator, and `EncodeAll`.
Bytes are modelled as `Nat` values below 256; machine-integer truncation is
made explicit with `% 2^w`.  Fallible Go code returns an explicit result
type; Go runtime panics are a distinguished outcome.
-/

abbrev Byte := Nat

/-- writeUint16 from writer.go: big-endian encoding of the low 16 bits. -/
def writeUint16 (u : Nat) : List Byte :=
  [u / 256 % 256, u % 256]

/-- writeUint32 from writer.go: big-endian encoding of the low 32 bits. -/
def writeUint32 (u : Nat) : List Byte :=
  [u / 16777216 % 256, u / 65536 % 256, u / 256 % 256, u % 256]

/-- binary.BigEndian.Uint32 applied to the first four bytes. -/
def beU32 (l : List Byte) : Nat :=
  match l with
  | b0 :: b1 :: b2 :: b3 :: _ => ((b0 * 256 + b1) * 256 + b2) * 256 + b3
  | _ => 0

/-- IEEE CRC32 polynomial 0xEDB88320 (reflected form), as used by hash/crc32. -/
def crc32Poly : Nat := 3988292384

/-- One shift step of the bitwise (reflected) CRC32 algorithm. -/
def crcStep (c : Nat) : Nat :=
  if c % 2 = 1 then (c / 2) ^^^ crc32Poly else c / 2

/-- Feed one byte into the CRC state. -/
def crcByte (c : Nat) (b : Byte) : Nat :=
  crcStep^[8] (c ^^^ b)

/-- Incremental CRC over a byte list: models successive crc.Write calls on
one hash/crc32 digest (the complement applied on entry and exit of each Go
Update call cancels between consecutive writes). -/
def crc32Update (c : Nat) (bs : List Byte) : Nat :=
  bs.foldl crcByte c

/-- One-pass IEEE CRC32 of a byte list, used as the independent recomputation
a verifier would run over tag-then-payload. -/
def crc32 (bs : List Byte) : Nat :=
  crc32Update 4294967295 bs ^^^ 4294967295

/-- PNG signature 89 50 4E 47 0D 0A 1A 0A (pngHeader in writer.go). -/
def pngHeaderBytes : List Byte := [137, 80, 78, 71, 13, 10, 26, 10]

def tagIHDR : List Byte := [73, 72, 68, 82]
def tagPLTE : List Byte := [80, 76, 84, 69]
def tagtRNS : List Byte := [116, 82, 78, 83]
def tagIDAT : List Byte := [73, 68, 65, 84]
def tagIEND : List Byte := [73, 69, 78, 68]
def tagacTL : List Byte := [97, 99, 84, 76]
def tagfcTL : List Byte := [102, 99, 84, 76]
def tagfdAT : List Byte := [102, 100, 65, 84]

/-- Errors returned by the Go code: errors.New messages, io.EOF,
io.ErrUnexpectedEOF, and errors produced by the output sink. -/
inductive GoErr where
  | msg (s : String)
  | eof
  | unexpectedEOF
  | sink (code : Nat)
deriving DecidableEq, Repr

/-- Result of a fallible Go computation; `panicked` models a runtime panic. -/
inductive GoRes (α : Type) where
  | ok (a : α)
  | err (e : GoErr)
  | panicked
deriving DecidableEq, Repr

/-- The payloads extracted from one standalone PNG: pngChunk in writer.go. -/
structure PngChunk where
  ihdr : List Byte
  idats : List (List Byte)
deriving DecidableEq, Repr

/-- Stage constants of the chunk fetcher (dsStart .. dsSeenIEND). -/
def dsStart : Nat := 0
def dsSeenIHDR : Nat := 1
def dsSeenPLTE : Nat := 2
def dsSeentRNS : Nat := 3
def dsSeenIDAT : Nat := 4
def dsSeenIEND : Nat := 5

/-- chunkFetcher from writer.go: the remaining buffer, the parser stage and
the payloads collected so far (the pngChunk the fetcher fills in). -/
structure ChunkFetcher where
  bb : List Byte
  stage : Nat
  ihdr : List Byte
  idats : List (List Byte)
deriving DecidableEq, Repr

/-- parseIHDR from writer.go.  The Go code slices a fixed 768-byte array as
c.tmp[:length] before reading, so a declared length above 768 is a runtime
panic; otherwise io.ReadFull returns io.EOF when no byte is available and
io.ErrUnexpectedEOF when only part of the payload is. -/
def parseIHDR (c : ChunkFetcher) (length : Nat) : GoRes ChunkFetcher :=
  if 768 < length then GoRes.panicked
  else if c.bb.length < length then
    GoRes.err (if c.bb.length = 0 then GoErr.eof else GoErr.unexpectedEOF)
  else
    GoRes.ok { c with bb := c.bb.drop length, ihdr := c.bb.take length }

/-- parseIDAT from writer.go: bb.Next(length) takes what is available and the
code returns io.EOF when fewer bytes than declared remained. -/
def parseIDAT (c : ChunkFetcher) (length : Nat) : GoRes ChunkFetcher :=
  if (c.bb.take length).length < length then GoRes.err GoErr.eof
  else GoRes.ok { c with bb := c.bb.drop length, idats := c.idats ++ [c.bb.take length] }

/-- parseIEND from writer.go: accepts without consuming anything. -/
def parseIEND (c : ChunkFetcher) (_length : Nat) : GoRes ChunkFetcher :=
  GoRes.ok c

/-- parsePNGChunk from writer.go: read the 8-byte prefix, dispatch on the
tag (the PLTE and tRNS cases are empty todo stubs that consume no payload),
then discard 4 bytes in place of the CRC.  On the Go error path the buffer
is also advanced by 4, but fetchPNGChunk discards the fetcher state on
error, so the error results carry no state here. -/
def parsePNGChunk (c : ChunkFetcher) : GoRes ChunkFetcher :=
  if c.bb.length < 8 then
    GoRes.err (if c.bb.length = 0 then GoErr.eof else GoErr.unexpectedEOF)
  else
    let hdr := c.bb.take 8
    let c1 : ChunkFetcher := { c with bb := c.bb.drop 8 }
    let length := beU32 hdr
    let tag := hdr.drop 4
    let r : GoRes ChunkFetcher :=
      if tag = tagIHDR then parseIHDR { c1 with stage := dsSeenIHDR } length
      else if tag = tagPLTE then GoRes.ok c1
      else if tag = tagtRNS then GoRes.ok c1
      else if tag = tagIDAT then parseIDAT { c1 with stage := dsSeenIDAT } length
      else if tag = tagIEND then parseIEND { c1 with stage := dsSeenIEND } length
      else GoRes.ok c1
    match r with
    | GoRes.ok c2 => GoRes.ok { c2 with bb := c2.bb.drop 4 }
    | GoRes.err e => GoRes.err e
    | GoRes.panicked => GoRes.panicked

/-- Loop of fetchPNGChunk: parse chunks until the IEND stage, turning io.EOF
into io.ErrUnexpectedEOF as the Go loop does.  The recursion runs on a fuel
that fetchPNGChunk sets to one more than the buffer length: every successful
parse consumes at least 8 buffer bytes (parsePNGChunk_shrinks), so the fuel
can never run out before the loop exits by stage or error, and the result is
independent of any sufficient fuel (fetchLoop_fuel). -/
def fetchLoop : Nat → ChunkFetcher → GoRes PngChunk
  | 0, _ => GoRes.err GoErr.unexpectedEOF
  | fuel + 1, c =>
    if c.stage = dsSeenIEND then GoRes.ok { ihdr := c.ihdr, idats := c.idats }
    else
      match parsePNGChunk c with
      | GoRes.ok c' => fetchLoop fuel c'
      | GoRes.err e => GoRes.err (if e = GoErr.eof then GoErr.unexpectedEOF else e)
      | GoRes.panicked => GoRes.panicked

/-- fetchPNGChunk from writer.go: skip the 8-byte signature and run the
chunk loop on a fresh fetcher. -/
def fetchPNGChunk (bb : List Byte) : GoRes PngChunk :=
  fetchLoop (bb.length + 1) { bb := bb.drop 8, stage := dsStart, ihdr := [], idats := [] }

/-- Frames are Go image.Image values seen through the two methods the encoder
calls: Bounds() (the four rectangle coordinates) and ColorModel() (an opaque
identity, modelled as a Nat).  A `none` entry models a nil interface value. -/
structure GoImage where
  MinX : Int
  MinY : Int
  MaxX : Int
  MaxY : Int
  Model : Nat
deriving DecidableEq, Repr

/-- APNG from writer.go: frame list, per-frame delays (uint16 hundredths of
a second), optional per-frame disposal bytes, and the uint32 loop count. -/
structure APNG where
  Image : List (Option GoImage)
  Delay : List Nat
  Disposal : Option (List Nat)
  LoopCount : Nat
deriving DecidableEq, Repr

/-- An output sink: given the bytes already written and the bytes of one
Write call, it either accepts the call (none) or fails it with an error
code (some code).  This models an arbitrary io.Writer. -/
structure Sink where
  accept : List Byte → List Byte → Option Nat

/-- State of the sink: the bytes successfully written so far and a log of
every attempted Write call with its outcome (none = success). -/
structure WState where
  out : List Byte
  log : List (List Byte × Option Nat)
deriving DecidableEq, Repr

def wst0 : WState := { out := [], log := [] }

/-- One Write call on the sink: on success the bytes are appended to the
wire, on failure nothing is written; either way the attempt is logged. -/
def doWrite (s : Sink) (st : WState) (b : List Byte) : WState × Option GoErr :=
  match s.accept st.out b with
  | none => ({ out := st.out ++ b, log := st.log ++ [(b, none)] }, none)
  | some code => ({ st with log := st.log ++ [(b, some code)] }, some (GoErr.sink code))

/-- A sink that accepts every write. -/
def okSink : Sink := { accept := fun _ _ => none }

/-- The encoder state from writer.go: sequence number, current frame's
extracted header and data payloads, the sticky error, and the sink state.
`pan` records that a runtime panic has occurred (after which nothing else
runs in Go; every operation below is a no-op once it is set). -/
structure Enc where
  seqNum : Nat
  ihdr : List Byte
  idats : List (List Byte)
  err : Option GoErr
  pan : Bool
  st : WState

/-- writeChunk from writer.go: do nothing under the sticky error, reject a
payload whose length does not fit in 32 bits, then write the 8-byte header
(big-endian length and tag), the payload, and the IEEE CRC32 computed
incrementally over tag then payload, stopping at the first failed write. -/
def writeChunk (s : Sink) (e : Enc) (b : List Byte) (name : List Byte) : Enc :=
  if e.pan then e
  else if e.err.isSome then e
  else if 4294967296 ≤ b.length then
    { e with err := some (GoErr.msg "apng: chunk is too large") }
  else
    match doWrite s e.st (writeUint32 b.length ++ name) with
    | (st1, some er) => { e with st := st1, err := some er }
    | (st1, none) =>
      match doWrite s st1 b with
      | (st2, some er) => { e with st := st2, err := some er }
      | (st2, none) =>
        match doWrite s st2 (writeUint32 (crc32Update (crc32Update 4294967295 name) b ^^^ 4294967295)) with
        | (st3, oe) => { e with st := st3, err := oe }

/-- writeIHDR from writer.go. -/
def writeIHDR (s : Sink) (e : Enc) : Enc :=
  writeChunk s e e.ihdr tagIHDR

/-- writeacTL from writer.go: u32 frame count then u32 loop count. -/
def writeacTL (s : Sink) (a : APNG) (e : Enc) : Enc :=
  writeChunk s e (writeUint32 a.Image.length ++ writeUint32 a.LoopCount) tagacTL

/-- Go conversion uint32(x) of a signed integer: two's complement
truncation to 32 bits. -/
def u32ofInt (x : Int) : Nat :=
  (x % 4294967296).toNat

/-- The 26-byte fcTL payload built by writefcTL: sequence number, width and
height from the raster bounds, the bounds minima as offsets, the frame's
delay over the fixed denominator 100, and dispose_op = blend_op = 0 (the
disposal switch in the source is commented out). -/
def fcTLPayload (seq : Nat) (img : GoImage) (d : Nat) : List Byte :=
  writeUint32 seq ++
  writeUint32 (u32ofInt (img.MaxX - img.MinX)) ++
  writeUint32 (u32ofInt (img.MaxY - img.MinY)) ++
  writeUint32 (u32ofInt img.MinX) ++
  writeUint32 (u32ofInt img.MinY) ++
  writeUint16 d ++ writeUint16 100 ++ [0, 0]

/-- writefcTL from writer.go: indexing a missing frame or delay is a Go
panic; otherwise emit the fcTL chunk and increment the sequence number
(the increment happens even when the chunk write was suppressed). -/
def writefcTL (s : Sink) (a : APNG) (i : Nat) (e : Enc) : Enc :=
  if e.pan then e
  else
    match a.Image[i]?, a.Delay[i]? with
    | some (some img), some d =>
      let e1 := writeChunk s e (fcTLPayload e.seqNum img d) tagfcTL
      { e1 with seqNum := e1.seqNum + 1 }
    | _, _ => { e with pan := true }

/-- writeIDATs from writer.go: one IDAT chunk per extracted data payload. -/
def writeIDATs (s : Sink) (e : Enc) : Enc :=
  e.idats.foldl (fun acc id => writeChunk s acc id tagIDAT) e

/-- Body of the writefdATs loop: make([]byte, 4, len(id)) panics when the
payload is shorter than 4 bytes; otherwise the fdAT payload is the current
sequence number followed by the IDAT payload, and the sequence number is
incremented afterwards. -/
def fdATStep (s : Sink) (acc : Enc) (id : List Byte) : Enc :=
  if acc.pan then acc
  else if id.length < 4 then { acc with pan := true }
  else
    let e1 := writeChunk s acc (writeUint32 acc.seqNum ++ id) tagfdAT
    { e1 with seqNum := e1.seqNum + 1 }

/-- writefdATs from writer.go. -/
def writefdATs (s : Sink) (e : Enc) : Enc :=
  e.idats.foldl (fdATStep s) e

/-- writeIEND from writer.go: a zero-length IEND chunk. -/
def writeIEND (s : Sink) (e : Enc) : Enc :=
  writeChunk s e [] tagIEND

/-- isSameColorModel from writer.go: false on an empty list or a nil first
frame, false when a later frame is nil or differs from the first frame's
color model. -/
def isSameColorModel (img : List (Option GoImage)) : Bool :=
  match img with
  | [] => false
  | none :: _ => false
  | some i0 :: rest =>
    rest.all fun o =>
      match o with
      | none => false
      | some i => i.Model == i0.Model

/-- fullfillFrameRegionConstraints from writer.go: the first frame needs
non-negative minima; every later frame needs non-negative minima and maxima
bounded by the first frame's maxima. -/
def fullfillFrameRegionConstraints (img : List (Option GoImage)) : Bool :=
  match img with
  | [] => false
  | none :: _ => false
  | some i0 :: rest =>
    if 0 ≤ i0.MinX ∧ 0 ≤ i0.MinY then
      rest.all fun o =>
        match o with
        | none => false
        | some i => decide (0 ≤ i.MinX ∧ 0 ≤ i.MinY ∧ i.MaxX ≤ i0.MaxX ∧ i.MaxY ≤ i0.MaxY)
    else false

/-- Outcome of an EncodeAll call: normal return (nil error), an error
return, or a runtime panic. -/
inductive ERes where
  | ok
  | err (e : GoErr)
  | panicked
deriving DecidableEq, Repr

/-- The per-frame loop of EncodeAll: encode the frame with the single-image
codec, decompose the result, then for frame 0 write IHDR, acTL, fcTL and the
IDAT chunks, and for a later frame write fcTL and the fdAT chunks.  A codec
failure is wrapped; a fetch failure is returned as is; both abort the loop
immediately, as does a panic. -/
def encodeFrames (codec : GoImage → Except String (List Byte)) (s : Sink) (a : APNG) :
    List (Option GoImage) → Nat → Enc → ERes × WState
  | [], _, e =>
    let e1 := writeIEND s e
    (if e1.pan then ERes.panicked
     else match e1.err with
          | none => ERes.ok
          | some er => ERes.err er, e1.st)
  | o :: rest, i, e =>
    if e.pan then (ERes.panicked, e.st)
    else
      match o with
      | none => (ERes.panicked, e.st)
      | some img =>
        match codec img with
        | Except.error m =>
          (ERes.err (GoErr.msg ("apng: png encoding error(" ++ m ++ ")")), e.st)
        | Except.ok bb =>
          match fetchPNGChunk bb with
          | GoRes.panicked => (ERes.panicked, e.st)
          | GoRes.err er => (ERes.err er, e.st)
          | GoRes.ok pc =>
            let e1 : Enc := { e with ihdr := pc.ihdr, idats := pc.idats }
            let e2 : Enc :=
              if i = 0 then writeIDATs s (writefcTL s a 0 (writeacTL s a (writeIHDR s e1)))
              else writefdATs s (writefcTL s a i e1)
            encodeFrames codec s a rest (i + 1) e2

/-- EncodeAll from writer.go, parametrised by the external single-image PNG
codec (png.Encode) and the output sink: the five structural validation
checks run before anything is written; then the PNG signature is written and
the frames are encoded in order. -/
def EncodeAll (codec : GoImage → Except String (List Byte)) (s : Sink) (a : APNG) :
    ERes × WState :=
  if a.Image.length = 0 then
    (ERes.err (GoErr.msg "apng: need at least one image"), wst0)
  else if a.Image.length ≠ a.Delay.length then
    (ERes.err (GoErr.msg "apng: mismatched image and delay lengths"), wst0)
  else if (match a.Disposal with
           | some d => a.Image.length != d.length
           | none => false) then
    (ERes.err (GoErr.msg "apng: mismatch image and disposal lengths"), wst0)
  else if isSameColorModel a.Image = false then
    (ERes.err (GoErr.msg "apng: must be all the same color model of images"), wst0)
  else if fullfillFrameRegionConstraints a.Image = false then
    (ERes.err (GoErr.msg "apng: must fullfill frame region constraints."), wst0)
  else
    match doWrite s wst0 pngHeaderBytes with
    | (st1, oe) =>
      encodeFrames codec s a a.Image 0
        { seqNum := 0, ihdr := [], idats := [], err := oe, pan := false, st := st1 }

/-- Byte layout of one chunk as the container format specifies it:
big-endian payload length, 4-byte tag, payload, big-endian CRC32 of
tag-then-payload recomputed in one pass. -/
def chunkBytes (name b : List Byte) : List Byte :=
  writeUint32 b.length ++ name ++ b ++ writeUint32 (crc32 (name ++ b))

/-- Concatenated byte layout of a list of (tag, payload) chunks. -/
def bytesOfChunks : List (List Byte × List Byte) → List Byte
  | [] => []
  | c :: t => chunkBytes c.1 c.2 ++ bytesOfChunks t

/-- The three successful sink-log entries writeChunk produces for a chunk. -/
def chunkLog (name b : List Byte) : List (List Byte × Option Nat) :=
  [(writeUint32 b.length ++ name, none), (b, none),
   (writeUint32 (crc32 (name ++ b)), none)]

/-- Sink-log entries for a list of chunks. -/
def logOfChunks : List (List Byte × List Byte) → List (List Byte × Option Nat)
  | [] => []
  | c :: t => chunkLog c.1 c.2 ++ logOfChunks t

/-- Everything EncodeAll consumes about one frame on the happy path: the
raster, its delay, and the payloads its standalone PNG decomposes into. -/
structure FrameData where
  img : GoImage
  d : Nat
  pc : PngChunk

/-- fdAT chunks of one frame: consecutive sequence numbers stamped in front
of each extracted data payload. -/
def fdATChunks (seq : Nat) : List (List Byte) → List (List Byte × List Byte)
  | [] => []
  | id :: t => (tagfdAT, writeUint32 seq ++ id) :: fdATChunks (seq + 1) t

/-- Chunks of the frames after frame 0: per frame one fcTL chunk followed by
its fdAT chunks, the shared sequence counter threaded through. -/
def laterChunks (seq : Nat) : List FrameData → List (List Byte × List Byte)
  | [] => []
  | f :: t =>
    (tagfcTL, fcTLPayload seq f.img f.d) :: fdATChunks (seq + 1) f.pc.idats
      ++ laterChunks (seq + 1 + f.pc.idats.length) t

/-- The full chunk sequence the spec prescribes for an accepted animation:
IHDR from frame 0's extracted header, acTL with frame count and loop count,
frame 0's fcTL followed by one IDAT per extracted payload, each later
frame's fcTL followed by its fdAT chunks, and a zero-length IEND. -/
def expectedChunks (loop : Nat) (n : Nat) : List FrameData → List (List Byte × List Byte)
  | [] => []
  | f0 :: t =>
    (tagIHDR, f0.pc.ihdr) ::
    (tagacTL, writeUint32 n ++ writeUint32 loop) ::
    (tagfcTL, fcTLPayload 0 f0.img f0.d) ::
    (f0.pc.idats.map fun id => (tagIDAT, id)) ++
    laterChunks 1 t ++ [(tagIEND, [])]

/-- First four payload bytes of every fcTL and fdAT chunk, in file order. -/
def animStamps : List (List Byte × List Byte) → List (List Byte)
  | [] => []
  | c :: t =>
    if c.1 = tagfcTL ∨ c.1 = tagfdAT then c.2.take 4 :: animStamps t
    else animStamps t

/-- Consecutive naturals s, s+1, ..., s+n-1. -/
def seqList (s n : Nat) : List Nat :=
  match n with
  | 0 => []
  | n + 1 => s :: seqList (s + 1) n

/-- Validation conditions as the specification words them: at least one
frame; delay list of the same length; a supplied disposal list of the same
length; every raster present and all color models identical; frame 0 with
non-negative minima; later frames with non-negative minima and maxima within
frame 0's maxima. -/
def specValid (a : APNG) : Prop :=
  a.Image ≠ [] ∧
  a.Image.length = a.Delay.length ∧
  (∀ d, a.Disposal = some d → a.Image.length = d.length) ∧
  (∀ o ∈ a.Image, o.isSome) ∧
  (∀ o1 ∈ a.Image, ∀ o2 ∈ a.Image, ∀ i1 i2, o1 = some i1 → o2 = some i2 →
    i1.Model = i2.Model) ∧
  (∀ i0, a.Image.head? = some (some i0) →
    (0 ≤ i0.MinX ∧ 0 ≤ i0.MinY) ∧
    ∀ o ∈ a.Image.tail, ∀ im, o = some im →
      0 ≤ im.MinX ∧ 0 ≤ im.MinY ∧ im.MaxX ≤ i0.MaxX ∧ im.MaxY ≤ i0.MaxY)

/-- A standalone single-frame PNG consisting of the signature, one IHDR
chunk, image-data chunks and a trailer, each in the checksummed layout. -/
def standalonePNG (ihdr : List Byte) (idats : List (List Byte)) : List Byte :=
  pngHeaderBytes ++ chunkBytes tagIHDR ihdr ++
    bytesOfChunks (idats.map fun id => (tagIDAT, id)) ++ chunkBytes tagIEND []

/-- The single-frame writing path of the core applied to extracted payloads:
signature, then writeIHDR, writeIDATs and writeIEND on a fresh encoder. -/
def reassembleSingle (pc : PngChunk) : List Byte :=
  (writeIEND okSink (writeIDATs okSink (writeIHDR okSink
    { seqNum := 0, ihdr := pc.ihdr, idats := pc.idats,
      err := (doWrite okSink wst0 pngHeaderBytes).2, pan := false,
      st := (doWrite okSink wst0 pngHeaderBytes).1 }))).st.out

/-- Independent CRC check on a chunk byte block: the bytes after the payload
must be the big-endian CRC32 of tag-then-payload as recovered from the
block's own declared length. -/
def chunkCRCOk (c : List Byte) : Prop :=
  c.drop (8 + beU32 (c.take 4)) =
    writeUint32 (crc32 ((c.drop 4).take 4 ++ (c.drop 8).take (beU32 (c.take 4))))

/-- Number of fcTL and fdAT chunks contributed by the frames after frame 0. -/
def animCount : List FrameData → Nat
  | [] => 0
  | f :: t => 1 + f.pc.idats.length + animCount t

/-- A 13-byte IHDR payload (1x1 pixel, bit depth 8, grayscale), as the
standard PNG encoder would produce. -/
def ihdr13 : List Byte := [0, 0, 0, 1, 0, 0, 0, 1, 8, 0, 0, 0, 0]

/-- A complete zlib stream (one stored block) for a 1x1 8-bit image row,
usable as an IDAT payload. -/
def idatA : List Byte := [120, 1, 1, 2, 0, 253, 255, 0, 0, 0, 2, 0, 1]

/-- A 13-byte IHDR payload for a 1x1 palette-indexed (color type 3) image. -/
def ihdrPal : List Byte := [0, 0, 0, 1, 0, 0, 0, 1, 8, 3, 0, 0, 0]

/-- A valid standalone paletted PNG: signature, IHDR (color type 3), a
3-byte PLTE chunk, one IDAT chunk and the trailer, all with correct CRCs. -/
def pltePNG : List Byte :=
  pngHeaderBytes ++ chunkBytes tagIHDR ihdrPal ++ chunkBytes tagPLTE [255, 0, 0] ++
    chunkBytes tagIDAT idatA ++ chunkBytes tagIEND []

/-- A buffer whose IDAT chunk declares 5 payload bytes but only 2 remain. -/
def truncPNG : List Byte :=
  pngHeaderBytes ++ chunkBytes tagIHDR ihdr13 ++ ([0, 0, 0, 5] ++ tagIDAT ++ [1, 2])

/-- A buffer that ends cleanly after a complete IDAT chunk, with no IEND. -/
def noEndPNG : List Byte :=
  pngHeaderBytes ++ chunkBytes tagIHDR ihdr13 ++ chunkBytes tagIDAT [1, 2]

/-- A 1x1 frame raster at the origin. -/
def img1 : GoImage := { MinX := 0, MinY := 0, MaxX := 1, MaxY := 1, Model := 7 }

/-- A codec standing in for png.Encode that always yields the same valid
standalone PNG bytes. -/
def codecA : GoImage → Except String (List Byte) :=
  fun _ => Except.ok (standalonePNG ihdr13 [idatA])

/-- A two-frame animation over `img1`. -/
def anim2 : APNG :=
  { Image := [some img1, some img1], Delay := [3, 4], Disposal := none, LoopCount := 5 }

/-- The frame data that `codecA` and the chunk reader actually produce for
each frame of `anim2`. -/
def frameA : FrameData := { img := img1, d := 3, pc := { ihdr := ihdr13, idats := [idatA] } }
def frameB : FrameData := { img := img1, d := 4, pc := { ihdr := ihdr13, idats := [idatA] } }

/-- A sink that fails every write with error code 7. -/
def badSink : Sink := { accept := fun _ _ => some 7 }

/-- A codec standing in for png.Encode that always fails. -/
def codecErr : GoImage → Except String (List Byte) :=
  fun _ => Except.error "boom"

/-- A valid one-frame animation over `img1`. -/
def anim1 : APNG :=
  { Image := [some img1], Delay := [0], Disposal := none, LoopCount := 0 }

/-- A sink that accepts writes while fewer than 8 bytes are on the wire and
fails every write afterwards with error code 7. -/
def failSink : Sink :=
  { accept := fun out _ => if out.length < 8 then none else some 7 }

/-- Every logged write attempt succeeded. -/
def NoFail (l : List (List Byte × Option Nat)) : Prop :=
  ∀ x ∈ l, x.2 = (none : Option Nat)

/-- The sink-failure invariant of an encoder state: either no attempted
write has failed and the sticky error is not a sink error, or exactly one
write failed, it is the last attempt in the log, and the sticky error is
exactly that sink error. -/
def EncInv (e : Enc) : Prop :=
  (NoFail e.st.log ∧ ∀ k, e.err ≠ some (GoErr.sink k)) ∨
  (∃ l b k, e.st.log = l ++ [(b, some k)] ∧ NoFail l ∧ e.err = some (GoErr.sink k))

/-- A fetcher state positioned at a PLTE chunk followed by the trailer. -/
def plteState : ChunkFetcher :=
  { bb := chunkBytes tagPLTE [255, 0, 0] ++ chunkBytes tagIEND [],
    stage := dsSeenIHDR, ihdr := ihdr13, idats := [] }

/-- A fresh fetcher state over an empty buffer. -/
def cf0 : ChunkFetcher := { bb := [], stage := dsStart, ihdr := [], idats := [] }

theorem parsePNGChunk_shrinks (c c' : ChunkFetcher)
    (h : parsePNGChunk c = GoRes.ok c') : c'.bb.length < c.bb.length := by
  unfold parsePNGChunk at h
  split at h
  · exact absurd h (by simp)
  · rename_i hlen
    push_neg at hlen
    simp only at h
    split at h
    · rename_i c2 heq
      simp only [GoRes.ok.injEq] at h
      subst h
      have hc2 : c2.bb.length ≤ c.bb.length - 8 := by
        split at heq
        · unfold parseIHDR at heq
          split at heq
          · exact absurd heq (by simp)
          · split at heq
            · exact absurd heq (by simp)
            · simp only [GoRes.ok.injEq] at heq
              subst heq
              simp only [List.length_drop]
              omega
        · split at heq
          · simp only [GoRes.ok.injEq] at heq
            subst heq
            simp only [List.length_drop]
            omega
          · split at heq
            · simp only [GoRes.ok.injEq] at heq
              subst heq
              simp only [List.length_drop]
              omega
            · split at heq
              · unfold parseIDAT at heq
                split at heq
                · exact absurd heq (by simp)
                · simp only [GoRes.ok.injEq] at heq
                  subst heq
                  simp only [List.length_drop]
                  omega
              · split at heq
                · unfold parseIEND at heq
                  simp only [GoRes.ok.injEq] at heq
                  subst heq
                  simp only [List.length_drop]
                  omega
                · simp only [GoRes.ok.injEq] at heq
                  subst heq
                  simp only [List.length_drop]
                  omega
      simp only [List.length_drop]
      omega
    · exact absurd h (by simp)
    · exact absurd h (by simp)

theorem fetchLoop_fuel : ∀ (f1 : Nat), ∀ (f2 : Nat) (c : ChunkFetcher),
    c.bb.length < f1 → c.bb.length < f2 → fetchLoop f1 c = fetchLoop f2 c := by
  intro f1
  induction f1 with
  | zero => intro f2 c h1 _; omega
  | succ g1 ih =>
    intro f2 c h1 h2
    cases f2 with
    | zero => omega
    | succ g2 =>
      simp only [fetchLoop]
      split
      · rfl
      · rcases hp : parsePNGChunk c with c' | e | _
        · have hlt := parsePNGChunk_shrinks c c' hp
          exact ih g2 c' (by omega) (by omega)
        · rfl
        · rfl

theorem crc32Update_append (c : Nat) (a b : List Byte) :
    crc32Update (crc32Update c a) b = crc32Update c (a ++ b) := by
  simp [crc32Update, List.foldl_append]

theorem beU32_writeUint32 (n : Nat) (h : n < 4294967296) :
    beU32 (writeUint32 n) = n := by
  simp only [beU32, writeUint32]
  omega

theorem writeUint32_length (n : Nat) : (writeUint32 n).length = 4 := rfl

theorem writeChunk_pan_true (s : Sink) (e : Enc) (b t : List Byte)
    (hp : e.pan = true) : writeChunk s e b t = e := by
  unfold writeChunk
  simp [hp]

theorem writeChunk_err_some (s : Sink) (e : Enc) (b t : List Byte)
    (he : e.err.isSome) : writeChunk s e b t = e := by
  unfold writeChunk
  simp [he]

theorem writeChunk_ok (e : Enc) (b t : List Byte)
    (hp : e.pan = false) (he : e.err = none) (hb : b.length < 4294967296) :
    writeChunk okSink e b t =
      { e with err := none,
               st := { out := e.st.out ++ chunkBytes t b,
                       log := e.st.log ++ chunkLog t b } } := by
  unfold writeChunk doWrite okSink
  simp only [hp, he, Option.isSome_none, Bool.false_eq_true, if_false, if_neg (Nat.not_le.mpr hb)]
  simp [chunkBytes, chunkLog, crc32, crc32Update_append, List.append_assoc]

/-- C4: every chunk emitted by the writer is laid out as a 4-byte big-endian
payload length, the 4-byte tag, the payload, and the big-endian IEEE CRC32
of tag-then-payload, and the trailing CRC verifies against an independent
one-pass recomputation over the concatenated tag and payload. -/
theorem writeChunk_layout_c4 (e : Enc) (b t : List Byte)
    (hp : e.pan = false) (he : e.err = none) (ht : t.length = 4)
    (hb : b.length < 4294967296) :
    (writeChunk okSink e b t).st.out =
      e.st.out ++ (writeUint32 b.length ++ t ++ b ++ writeUint32 (crc32 (t ++ b))) ∧
    chunkCRCOk (writeUint32 b.length ++ t ++ b ++ writeUint32 (crc32 (t ++ b))) := by
  constructor
  · rw [writeChunk_ok e b t hp he hb]
    simp [chunkBytes, List.append_assoc]
  · unfold chunkCRCOk
    have h4 : (writeUint32 b.length ++ t ++ b ++ writeUint32 (crc32 (t ++ b))).take 4 =
        writeUint32 b.length := by
      rw [List.append_assoc, List.append_assoc]
      rw [← writeUint32_length b.length]
      exact List.take_left _ _
    rw [h4, beU32_writeUint32 b.length hb]
    have hd4 : (writeUint32 b.length ++ t ++ b ++ writeUint32 (crc32 (t ++ b))).drop 4 =
        t ++ b ++ writeUint32 (crc32 (t ++ b)) := by
      rw [List.append_assoc, List.append_assoc, ← writeUint32_length b.length]
      simp [List.drop_left, List.append_assoc]
    have hd8 : (writeUint32 b.length ++ t ++ b ++ writeUint32 (crc32 (t ++ b))).drop 8 =
        b ++ writeUint32 (crc32 (t ++ b)) := by
      have h8 : (8 : Nat) = (writeUint32 b.length ++ t).length := by
        simp [writeUint32_length, ht]
      rw [List.append_assoc, List.append_assoc, ← List.append_assoc (writeUint32 b.length), h8]
      exact List.drop_left _ _
    have hdrop : (writeUint32 b.length ++ t ++ b ++ writeUint32 (crc32 (t ++ b))).drop
        (8 + b.length) = writeUint32 (crc32 (t ++ b)) := by
      rw [← List.drop_drop b.length 8, hd8]
      exact List.drop_left b _
    rw [hdrop, hd4, hd8]
    have ht4 : (t ++ b ++ writeUint32 (crc32 (t ++ b))).take 4 = t := by
      rw [List.append_assoc, ← ht]
      exact List.take_left _ _
    have htb : (b ++ writeUint32 (crc32 (t ++ b))).take b.length = b :=
      List.take_left _ _
    rw [ht4, htb]

/-- Witness for C4 at a concrete chunk. -/
theorem writeChunk_layout_c4_witness :
    (writeChunk okSink
        { seqNum := 0, ihdr := [], idats := [], err := none, pan := false, st := wst0 }
        [1, 2] tagIDAT).st.out =
      wst0.out ++ (writeUint32 ([1, 2] : List Byte).length ++ tagIDAT ++ [1, 2] ++
        writeUint32 (crc32 (tagIDAT ++ [1, 2]))) ∧
    chunkCRCOk (writeUint32 ([1, 2] : List Byte).length ++ tagIDAT ++ [1, 2] ++
      writeUint32 (crc32 (tagIDAT ++ [1, 2]))) :=
  writeChunk_layout_c4
    { seqNum := 0, ihdr := [], idats := [], err := none, pan := false, st := wst0 }
    [1, 2] tagIDAT rfl rfl rfl (by decide)

theorem writeChunk_fields (s : Sink) (e : Enc) (b t : List Byte) :
    (writeChunk s e b t).seqNum = e.seqNum ∧ (writeChunk s e b t).ihdr = e.ihdr ∧
    (writeChunk s e b t).idats = e.idats ∧ (writeChunk s e b t).pan = e.pan := by
  unfold writeChunk
  repeat' split
  all_goals exact ⟨rfl, rfl, rfl, rfl⟩

theorem fcTLPayload_length (seq : Nat) (img : GoImage) (d : Nat) :
    (fcTLPayload seq img d).length = 26 := rfl

theorem writefcTL_ok (a : APNG) (i : Nat) (e : Enc) (img : GoImage) (d : Nat)
    (hp : e.pan = false) (he : e.err = none)
    (hI : a.Image[i]? = some (some img)) (hD : a.Delay[i]? = some d) :
    writefcTL okSink a i e =
      { e with err := none, seqNum := e.seqNum + 1,
               st := { out := e.st.out ++ chunkBytes tagfcTL (fcTLPayload e.seqNum img d),
                       log := e.st.log ++ chunkLog tagfcTL (fcTLPayload e.seqNum img d) } } := by
  unfold writefcTL
  simp only [hp, Bool.false_eq_true, if_false, hI, hD]
  rw [writeChunk_ok e _ tagfcTL hp he (by rw [fcTLPayload_length]; omega)]
  simp [hp]

theorem foldIDATs_ok (ids : List (List Byte)) : ∀ e : Enc, e.pan = false → e.err = none →
    (∀ id ∈ ids, id.length < 4294967296) →
    ids.foldl (fun acc id => writeChunk okSink acc id tagIDAT) e =
      { e with err := none,
               st := { out := e.st.out ++ bytesOfChunks (ids.map fun id => (tagIDAT, id)),
                       log := e.st.log ++ logOfChunks (ids.map fun id => (tagIDAT, id)) } } := by
  induction ids with
  | nil =>
    intro e hp he _
    cases e with
    | mk sq ih idl er pn st =>
      cases st with
      | mk o l =>
        simp only [List.foldl_nil, List.map_nil, bytesOfChunks, logOfChunks, List.append_nil]
        simp_all
  | cons id t ih =>
    intro e hp he hsz
    simp only [List.foldl_cons]
    rw [writeChunk_ok e id tagIDAT hp he (hsz id (by simp))]
    rw [ih { e with
              err := none,
              st := { out := e.st.out ++ chunkBytes tagIDAT id,
                      log := e.st.log ++ chunkLog tagIDAT id } } hp rfl
          (fun x hx => hsz x (by simp [hx]))]
    simp [bytesOfChunks, logOfChunks, List.append_assoc]

theorem writeIDATs_ok (e : Enc) (hp : e.pan = false) (he : e.err = none)
    (hsz : ∀ id ∈ e.idats, id.length < 4294967296) :
    writeIDATs okSink e =
      { e with err := none,
               st := { out := e.st.out ++ bytesOfChunks (e.idats.map fun id => (tagIDAT, id)),
                       log := e.st.log ++ logOfChunks (e.idats.map fun id => (tagIDAT, id)) } } :=
  foldIDATs_ok e.idats e hp he hsz

theorem foldfdATs_ok (ids : List (List Byte)) : ∀ e : Enc, e.pan = false → e.err = none →
    (∀ id ∈ ids, 4 ≤ id.length ∧ id.length + 4 < 4294967296) →
    ids.foldl (fdATStep okSink) e =
      { e with err := none, seqNum := e.seqNum + ids.length,
               st := { out := e.st.out ++ bytesOfChunks (fdATChunks e.seqNum ids),
                       log := e.st.log ++ logOfChunks (fdATChunks e.seqNum ids) } } := by
  induction ids with
  | nil =>
    intro e hp he _
    cases e with
    | mk sq ih idl er pn st =>
      cases st with
      | mk o l =>
        simp only [List.foldl_nil, fdATChunks, bytesOfChunks, logOfChunks, List.append_nil,
          List.length_nil, Nat.add_zero]
        simp_all
  | cons id t ih =>
    intro e hp he hsz
    have hid := hsz id (by simp)
    simp only [List.foldl_cons]
    have hstep : fdATStep okSink e id =
        { e with
          err := none,
          seqNum := e.seqNum + 1,
          st := { out := e.st.out ++ chunkBytes tagfdAT (writeUint32 e.seqNum ++ id),
                  log := e.st.log ++ chunkLog tagfdAT (writeUint32 e.seqNum ++ id) } } := by
      unfold fdATStep
      simp only [hp, Bool.false_eq_true, if_false, if_neg (by omega : ¬ id.length < 4)]
      rw [writeChunk_ok e _ tagfdAT hp he (by simp [writeUint32_length]; omega)]
      simp [hp]
    rw [hstep]
    clear hstep
    rw [ih { e with
              err := none,
              seqNum := e.seqNum + 1,
              st := { out := e.st.out ++ chunkBytes tagfdAT (writeUint32 e.seqNum ++ id),
                      log := e.st.log ++ chunkLog tagfdAT (writeUint32 e.seqNum ++ id) } } hp rfl
          (fun x hx => hsz x (by simp [hx]))]
    simp only [fdATChunks, bytesOfChunks, logOfChunks, List.append_assoc, List.length_cons,
      Enc.mk.injEq, WState.mk.injEq]
    repeat' constructor
    all_goals first | omega | trivial

theorem writefdATs_ok (e : Enc) (hp : e.pan = false) (he : e.err = none)
    (hsz : ∀ id ∈ e.idats, 4 ≤ id.length ∧ id.length + 4 < 4294967296) :
    writefdATs okSink e =
      { e with err := none, seqNum := e.seqNum + e.idats.length,
               st := { out := e.st.out ++ bytesOfChunks (fdATChunks e.seqNum e.idats),
                       log := e.st.log ++ logOfChunks (fdATChunks e.seqNum e.idats) } } :=
  foldfdATs_ok e.idats e hp he hsz

theorem getElem?_eq_head_drop {α : Type} (l : List α) (i : Nat) :
    l[i]? = (l.drop i).head? := by
  induction l generalizing i with
  | nil => simp
  | cons x xs ih =>
    cases i with
    | zero => simp
    | succ n => simpa using ih n

theorem bytesOfChunks_append (a b : List (List Byte × List Byte)) :
    bytesOfChunks (a ++ b) = bytesOfChunks a ++ bytesOfChunks b := by
  induction a with
  | nil => simp [bytesOfChunks]
  | cons c t ih => simp [bytesOfChunks, ih]

theorem logOfChunks_append (a b : List (List Byte × List Byte)) :
    logOfChunks (a ++ b) = logOfChunks a ++ logOfChunks b := by
  induction a with
  | nil => simp [logOfChunks]
  | cons c t ih => simp [logOfChunks, ih]

theorem encodeFrames_later (codec : GoImage → Except String (List Byte)) (a : APNG) :
    ∀ (fs : List FrameData) (i : Nat) (e : Enc),
    e.pan = false → e.err = none → 1 ≤ i →
    a.Image.drop i = fs.map (fun f => (some f.img : Option GoImage)) →
    a.Delay.drop i = fs.map (fun f => f.d) →
    (∀ f ∈ fs, ∃ bb, codec f.img = Except.ok bb ∧ fetchPNGChunk bb = GoRes.ok f.pc) →
    (∀ f ∈ fs, ∀ id ∈ f.pc.idats, 4 ≤ id.length ∧ id.length + 4 < 4294967296) →
    encodeFrames codec okSink a (fs.map (fun f => (some f.img : Option GoImage))) i e =
      (ERes.ok,
       { out := e.st.out ++ bytesOfChunks (laterChunks e.seqNum fs ++ [(tagIEND, [])]),
         log := e.st.log ++ logOfChunks (laterChunks e.seqNum fs ++ [(tagIEND, [])]) }) := by
  intro fs
  induction fs with
  | nil =>
    intro i e hp he _ _ _ _ _
    simp only [List.map_nil, encodeFrames, writeIEND]
    rw [writeChunk_ok e [] tagIEND hp he (by simp)]
    simp [hp, laterChunks, bytesOfChunks, logOfChunks, chunkLog]
  | cons f t ih =>
    intro i e hp he h1 hImg hDel hPipe hSz
    obtain ⟨bb, hbb, hfetch⟩ := hPipe f (by simp)
    have hI : a.Image[i]? = some (some f.img) := by
      rw [getElem?_eq_head_drop, hImg]; simp
    have hD : a.Delay[i]? = some f.d := by
      rw [getElem?_eq_head_drop, hDel]; simp
    simp only [List.map_cons, encodeFrames, hp, Bool.false_eq_true, if_false]
    rw [hbb]
    simp only
    rw [hfetch]
    simp only [if_neg (by omega : ¬ i = 0)]
    rw [writefcTL_ok a i
      { seqNum := e.seqNum, ihdr := f.pc.ihdr, idats := f.pc.idats, err := e.err,
        pan := false, st := e.st } f.img f.d rfl he hI hD]
    simp only
    rw [writefdATs_ok
      { seqNum := e.seqNum + 1, ihdr := f.pc.ihdr, idats := f.pc.idats, err := none,
        pan := false,
        st := { out := e.st.out ++ chunkBytes tagfcTL (fcTLPayload e.seqNum f.img f.d),
                log := e.st.log ++ chunkLog tagfcTL (fcTLPayload e.seqNum f.img f.d) } }
      rfl rfl (fun id hid => hSz f (by simp) id hid)]
    simp only
    rw [ih (i + 1)
      { seqNum := e.seqNum + 1 + f.pc.idats.length, ihdr := f.pc.ihdr, idats := f.pc.idats,
        err := none, pan := false,
        st := { out := e.st.out ++ chunkBytes tagfcTL (fcTLPayload e.seqNum f.img f.d)
                  ++ bytesOfChunks (fdATChunks (e.seqNum + 1) f.pc.idats),
                log := e.st.log ++ chunkLog tagfcTL (fcTLPayload e.seqNum f.img f.d)
                  ++ logOfChunks (fdATChunks (e.seqNum + 1) f.pc.idats) } }
      rfl rfl (by omega)
      (by rw [← List.drop_drop 1 i, hImg]; simp)
      (by rw [← List.drop_drop 1 i, hDel]; simp)
      (fun g hg => hPipe g (by simp [hg]))
      (fun g hg => hSz g (by simp [hg]))]
    simp [laterChunks, bytesOfChunks, logOfChunks, bytesOfChunks_append,
      logOfChunks_append, List.cons_append, List.append_assoc, List.append_nil]

theorem encodeAll_happy (codec : GoImage → Except String (List Byte)) (a : APNG)
    (f0 : FrameData) (t : List FrameData)
    (hImg : a.Image = (f0 :: t).map (fun f => (some f.img : Option GoImage)))
    (hDel : a.Delay = (f0 :: t).map (fun f => f.d))
    (hDisp : (match a.Disposal with
              | some d => a.Image.length != d.length
              | none => false) = false)
    (hColor : isSameColorModel a.Image = true)
    (hRegion : fullfillFrameRegionConstraints a.Image = true)
    (hPipe : ∀ f ∈ f0 :: t, ∃ bb, codec f.img = Except.ok bb ∧ fetchPNGChunk bb = GoRes.ok f.pc)
    (hIhdr : f0.pc.ihdr.length < 4294967296)
    (hIdat0 : ∀ id ∈ f0.pc.idats, id.length < 4294967296)
    (hIdatT : ∀ f ∈ t, ∀ id ∈ f.pc.idats, 4 ≤ id.length ∧ id.length + 4 < 4294967296) :
    EncodeAll codec okSink a =
      (ERes.ok,
       { out := pngHeaderBytes ++
           bytesOfChunks (expectedChunks a.LoopCount (t.length + 1) (f0 :: t)),
         log := (pngHeaderBytes, (none : Option Nat)) ::
           logOfChunks (expectedChunks a.LoopCount (t.length + 1) (f0 :: t)) }) := by
  have hlen : a.Image.length = t.length + 1 := by rw [hImg]; simp
  have hdlen : a.Delay.length = t.length + 1 := by rw [hDel]; simp
  obtain ⟨bb0, hbb0, hfetch0⟩ := hPipe f0 (by simp)
  have hI0 : a.Image[0]? = some (some f0.img) := by rw [hImg]; simp
  have hD0 : a.Delay[0]? = some f0.d := by rw [hDel]; simp
  have hdropI : a.Image.drop 1 = t.map (fun f => (some f.img : Option GoImage)) := by
    rw [hImg]; simp
  have hdropD : a.Delay.drop 1 = t.map (fun f => f.d) := by
    rw [hDel]; simp
  have hPipeT : ∀ f ∈ t, ∃ bb, codec f.img = Except.ok bb ∧ fetchPNGChunk bb = GoRes.ok f.pc :=
    fun g hg => hPipe g (List.mem_cons_of_mem f0 hg)
  have hacTL : ((writeUint32 (t.length + 1) ++ writeUint32 a.LoopCount : List Byte)).length
      < 4294967296 := by simp [writeUint32_length]
  have hdw : doWrite okSink wst0 pngHeaderBytes =
      ({ out := pngHeaderBytes, log := [(pngHeaderBytes, none)] }, none) := rfl
  unfold EncodeAll
  rw [if_neg (by omega), if_neg (by omega), if_neg (by simp [hDisp]),
    if_neg (by simp [hColor]), if_neg (by simp [hRegion]), hdw]
  simp only
  conv_lhs => rw [hImg]
  simp only [List.map_cons, encodeFrames, Bool.false_eq_true, if_false]
  rw [hbb0]
  simp only
  rw [hfetch0]
  simp only
  simp only [if_true]
  have s1 : writeIHDR okSink
      { seqNum := 0, ihdr := f0.pc.ihdr, idats := f0.pc.idats, err := none, pan := false,
        st := { out := pngHeaderBytes, log := [(pngHeaderBytes, none)] } } =
      { seqNum := 0, ihdr := f0.pc.ihdr, idats := f0.pc.idats, err := none, pan := false,
        st := { out := pngHeaderBytes ++ chunkBytes tagIHDR f0.pc.ihdr,
                log := [(pngHeaderBytes, none)] ++ chunkLog tagIHDR f0.pc.ihdr } } :=
    writeChunk_ok _ f0.pc.ihdr tagIHDR rfl rfl hIhdr
  have s2 : writeacTL okSink a
      { seqNum := 0, ihdr := f0.pc.ihdr, idats := f0.pc.idats, err := none, pan := false,
        st := { out := pngHeaderBytes ++ chunkBytes tagIHDR f0.pc.ihdr,
                log := [(pngHeaderBytes, none)] ++ chunkLog tagIHDR f0.pc.ihdr } } =
      { seqNum := 0, ihdr := f0.pc.ihdr, idats := f0.pc.idats, err := none, pan := false,
        st := { out := pngHeaderBytes ++ chunkBytes tagIHDR f0.pc.ihdr
                  ++ chunkBytes tagacTL (writeUint32 a.Image.length ++ writeUint32 a.LoopCount),
                log := [(pngHeaderBytes, none)] ++ chunkLog tagIHDR f0.pc.ihdr
                  ++ chunkLog tagacTL (writeUint32 a.Image.length ++ writeUint32 a.LoopCount) } } :=
    writeChunk_ok _ (writeUint32 a.Image.length ++ writeUint32 a.LoopCount) tagacTL rfl rfl
      (by simp [writeUint32_length])
  have s3 : writefcTL okSink a 0
      { seqNum := 0, ihdr := f0.pc.ihdr, idats := f0.pc.idats, err := none, pan := false,
        st := { out := pngHeaderBytes ++ chunkBytes tagIHDR f0.pc.ihdr
                  ++ chunkBytes tagacTL (writeUint32 a.Image.length ++ writeUint32 a.LoopCount),
                log := [(pngHeaderBytes, none)] ++ chunkLog tagIHDR f0.pc.ihdr
                  ++ chunkLog tagacTL (writeUint32 a.Image.length ++ writeUint32 a.LoopCount) } } =
      { seqNum := 1, ihdr := f0.pc.ihdr, idats := f0.pc.idats, err := none, pan := false,
        st := { out := pngHeaderBytes ++ chunkBytes tagIHDR f0.pc.ihdr
                  ++ chunkBytes tagacTL (writeUint32 a.Image.length ++ writeUint32 a.LoopCount)
                  ++ chunkBytes tagfcTL (fcTLPayload 0 f0.img f0.d),
                log := [(pngHeaderBytes, none)] ++ chunkLog tagIHDR f0.pc.ihdr
                  ++ chunkLog tagacTL (writeUint32 a.Image.length ++ writeUint32 a.LoopCount)
                  ++ chunkLog tagfcTL (fcTLPayload 0 f0.img f0.d) } } :=
    writefcTL_ok a 0 _ f0.img f0.d rfl rfl hI0 hD0
  have s4 : writeIDATs okSink
      { seqNum := 1, ihdr := f0.pc.ihdr, idats := f0.pc.idats, err := none, pan := false,
        st := { out := pngHeaderBytes ++ chunkBytes tagIHDR f0.pc.ihdr
                  ++ chunkBytes tagacTL (writeUint32 a.Image.length ++ writeUint32 a.LoopCount)
                  ++ chunkBytes tagfcTL (fcTLPayload 0 f0.img f0.d),
                log := [(pngHeaderBytes, none)] ++ chunkLog tagIHDR f0.pc.ihdr
                  ++ chunkLog tagacTL (writeUint32 a.Image.length ++ writeUint32 a.LoopCount)
                  ++ chunkLog tagfcTL (fcTLPayload 0 f0.img f0.d) } } =
      { seqNum := 1, ihdr := f0.pc.ihdr, idats := f0.pc.idats, err := none, pan := false,
        st := { out := pngHeaderBytes ++ chunkBytes tagIHDR f0.pc.ihdr
                  ++ chunkBytes tagacTL (writeUint32 a.Image.length ++ writeUint32 a.LoopCount)
                  ++ chunkBytes tagfcTL (fcTLPayload 0 f0.img f0.d)
                  ++ bytesOfChunks (f0.pc.idats.map fun id => (tagIDAT, id)),
                log := [(pngHeaderBytes, none)] ++ chunkLog tagIHDR f0.pc.ihdr
                  ++ chunkLog tagacTL (writeUint32 a.Image.length ++ writeUint32 a.LoopCount)
                  ++ chunkLog tagfcTL (fcTLPayload 0 f0.img f0.d)
                  ++ logOfChunks (f0.pc.idats.map fun id => (tagIDAT, id)) } } :=
    writeIDATs_ok _ rfl rfl hIdat0
  rw [s1, s2, s3, s4]
  simp only [Nat.zero_add]
  rw [encodeFrames_later codec a t 1 _ rfl rfl (le_refl 1) hdropI hdropD hPipeT hIdatT]
  simp [expectedChunks, bytesOfChunks, logOfChunks, bytesOfChunks_append,
    logOfChunks_append, List.append_assoc, hlen]

/-- C1: for every animation that passes the validator and whose frames all
encode and decompose successfully (with data payloads of ordinary sizes),
EncodeAll returns nil and writes exactly, in order: the 8-byte PNG
signature; an IHDR chunk carrying frame 0's extracted header payload
verbatim; an acTL chunk with the frame count then the loop count; frame 0's
fcTL chunk followed by one IDAT chunk per extracted data payload; for each
later frame in order an fcTL chunk followed by one fdAT chunk per extracted
data payload; and finally a zero-length IEND chunk. -/
theorem encodeAll_stream_c1 (codec : GoImage → Except String (List Byte)) (a : APNG)
    (f0 : FrameData) (t : List FrameData)
    (hImg : a.Image = (f0 :: t).map (fun f => (some f.img : Option GoImage)))
    (hDel : a.Delay = (f0 :: t).map (fun f => f.d))
    (hDisp : (match a.Disposal with
              | some d => a.Image.length != d.length
              | none => false) = false)
    (hColor : isSameColorModel a.Image = true)
    (hRegion : fullfillFrameRegionConstraints a.Image = true)
    (hPipe : ∀ f ∈ f0 :: t, ∃ bb, codec f.img = Except.ok bb ∧ fetchPNGChunk bb = GoRes.ok f.pc)
    (hIhdr : f0.pc.ihdr.length < 4294967296)
    (hIdat0 : ∀ id ∈ f0.pc.idats, id.length < 4294967296)
    (hIdatT : ∀ f ∈ t, ∀ id ∈ f.pc.idats, 4 ≤ id.length ∧ id.length + 4 < 4294967296) :
    (EncodeAll codec okSink a).1 = ERes.ok ∧
    (EncodeAll codec okSink a).2.out =
      pngHeaderBytes ++ bytesOfChunks (expectedChunks a.LoopCount (t.length + 1) (f0 :: t)) := by
  rw [encodeAll_happy codec a f0 t hImg hDel hDisp hColor hRegion hPipe hIhdr hIdat0 hIdatT]
  exact ⟨rfl, rfl⟩

/-- Witness for C1: a concrete two-frame animation. -/
theorem encodeAll_stream_c1_witness :
    (EncodeAll codecA okSink anim2).1 = ERes.ok ∧
    (EncodeAll codecA okSink anim2).2.out =
      pngHeaderBytes ++ bytesOfChunks (expectedChunks anim2.LoopCount ([frameB].length + 1)
        (frameA :: [frameB])) :=
  encodeAll_stream_c1 codecA anim2 frameA [frameB]
    (by decide) (by decide) (by decide) (by decide) (by decide)
    (by
      intro f hf
      refine ⟨standalonePNG ihdr13 [idatA], rfl, ?_⟩
      have hfe : fetchPNGChunk (standalonePNG ihdr13 [idatA]) =
          GoRes.ok { ihdr := ihdr13, idats := [idatA] } := by decide
      cases hf with
      | head => exact hfe
      | tail _ h =>
        cases h with
        | head => exact hfe
        | tail _ h2 => cases h2)
    (by decide) (by decide) (by decide)

theorem seqList_length (n : Nat) : ∀ s, (seqList s n).length = n := by
  induction n with
  | zero => intro s; rfl
  | succ m ih => intro s; simp [seqList, ih]

theorem seqList_split : ∀ (a : Nat) (s b : Nat),
    seqList s (a + b) = seqList s a ++ seqList (s + a) b := by
  intro a
  induction a with
  | zero => intro s b; simp [seqList]
  | succ a ih =>
    intro s b
    have h1 : a + 1 + b = (a + b) + 1 := by omega
    rw [h1]
    simp only [seqList, List.cons_append]
    rw [ih (s + 1) b]
    have h2 : s + 1 + a = s + (a + 1) := by omega
    rw [h2]

theorem take4_writeUint32_append (n : Nat) (r : List Byte) :
    (writeUint32 n ++ r).take 4 = writeUint32 n := by
  rw [← writeUint32_length n]
  exact List.take_left _ _

theorem animStamps_append (xs ys : List (List Byte × List Byte)) :
    animStamps (xs ++ ys) = animStamps xs ++ animStamps ys := by
  induction xs with
  | nil => simp [animStamps]
  | cons c t ih =>
    by_cases h : c.1 = tagfcTL ∨ c.1 = tagfdAT <;>
      simp [animStamps, h, ih]

theorem animStamps_fdATChunks (ids : List (List Byte)) : ∀ seq,
    animStamps (fdATChunks seq ids) = (seqList seq ids.length).map writeUint32 := by
  induction ids with
  | nil => intro seq; simp [fdATChunks, animStamps, seqList]
  | cons id t ih =>
    intro seq
    simp only [fdATChunks, animStamps, List.length_cons, or_true, if_true]
    rw [take4_writeUint32_append, ih (seq + 1)]
    simp [seqList]

theorem take4_fcTLPayload (seq : Nat) (img : GoImage) (d : Nat) :
    (fcTLPayload seq img d).take 4 = writeUint32 seq := by
  simp only [fcTLPayload, List.append_assoc]
  exact take4_writeUint32_append _ _

theorem animStamps_idatMap (ids : List (List Byte)) :
    animStamps (ids.map fun id => (tagIDAT, id)) = [] := by
  induction ids with
  | nil => rfl
  | cons id t ih =>
    have hne : ¬(tagIDAT = tagfcTL ∨ tagIDAT = tagfdAT) := by decide
    simp only [List.map_cons, animStamps, if_neg hne, ih]

theorem animStamps_laterChunks (fs : List FrameData) : ∀ seq,
    animStamps (laterChunks seq fs) = (seqList seq (animCount fs)).map writeUint32 := by
  induction fs with
  | nil => intro seq; simp [laterChunks, animStamps, animCount, seqList]
  | cons f t ih =>
    intro seq
    simp only [laterChunks, animStamps, List.cons_append, animCount, true_or, if_true,
      List.append_eq]
    rw [take4_fcTLPayload, animStamps_append,
      animStamps_fdATChunks f.pc.idats (seq + 1), ih (seq + 1 + f.pc.idats.length)]
    have h1 : 1 + f.pc.idats.length + animCount t =
        (f.pc.idats.length + animCount t) + 1 := by omega
    rw [h1]
    simp only [seqList, List.map_cons]
    rw [seqList_split f.pc.idats.length (seq + 1) (animCount t)]
    simp [List.map_append]

theorem animStamps_expected (loop n : Nat) (f0 : FrameData) (t : List FrameData) :
    animStamps (expectedChunks loop n (f0 :: t)) =
      (seqList 0 (1 + animCount t)).map writeUint32 := by
  have hne1 : ¬(tagIHDR = tagfcTL ∨ tagIHDR = tagfdAT) := by decide
  have hne2 : ¬(tagacTL = tagfcTL ∨ tagacTL = tagfdAT) := by decide
  have hne3 : ¬(tagIEND = tagfcTL ∨ tagIEND = tagfdAT) := by decide
  simp only [expectedChunks, animStamps]
  rw [if_neg hne1, if_neg hne2]
  simp only [true_or, if_true, List.append_eq]
  rw [take4_fcTLPayload, animStamps_append, animStamps_append, animStamps_idatMap,
    animStamps_laterChunks t 1]
  have h1 : 1 + animCount t = animCount t + 1 := by omega
  rw [h1]
  simp [animStamps, seqList, hne3]

/-- C2: within one EncodeAll call the sequence counter starts at 0, every
fcTL and every fdAT chunk stamps the current counter value into its first 4
payload bytes and increments it by exactly one, and the counter never
resets: across the file the fcTL/fdAT stamps are the encodings of 0,1,2,...
with no gaps or repeats, and frame 0's IDAT chunks consume none of them. -/
theorem encodeAll_seq_c2 (codec : GoImage → Except String (List Byte)) (a : APNG)
    (f0 : FrameData) (t : List FrameData)
    (hImg : a.Image = (f0 :: t).map (fun f => (some f.img : Option GoImage)))
    (hDel : a.Delay = (f0 :: t).map (fun f => f.d))
    (hDisp : (match a.Disposal with
              | some d => a.Image.length != d.length
              | none => false) = false)
    (hColor : isSameColorModel a.Image = true)
    (hRegion : fullfillFrameRegionConstraints a.Image = true)
    (hPipe : ∀ f ∈ f0 :: t, ∃ bb, codec f.img = Except.ok bb ∧ fetchPNGChunk bb = GoRes.ok f.pc)
    (hIhdr : f0.pc.ihdr.length < 4294967296)
    (hIdat0 : ∀ id ∈ f0.pc.idats, id.length < 4294967296)
    (hIdatT : ∀ f ∈ t, ∀ id ∈ f.pc.idats, 4 ≤ id.length ∧ id.length + 4 < 4294967296) :
    (EncodeAll codec okSink a).2.out =
      pngHeaderBytes ++ bytesOfChunks (expectedChunks a.LoopCount (t.length + 1) (f0 :: t)) ∧
    animStamps (expectedChunks a.LoopCount (t.length + 1) (f0 :: t)) =
      (seqList 0
        (animStamps (expectedChunks a.LoopCount (t.length + 1) (f0 :: t))).length).map
        writeUint32 := by
  constructor
  · rw [encodeAll_happy codec a f0 t hImg hDel hDisp hColor hRegion hPipe hIhdr hIdat0 hIdatT]
  · rw [animStamps_expected a.LoopCount (t.length + 1) f0 t, List.length_map, seqList_length]

/-- Witness for C2: the concrete two-frame animation again. -/
theorem encodeAll_seq_c2_witness :
    (EncodeAll codecA okSink anim2).2.out =
      pngHeaderBytes ++ bytesOfChunks (expectedChunks anim2.LoopCount ([frameB].length + 1)
        (frameA :: [frameB])) ∧
    animStamps (expectedChunks anim2.LoopCount ([frameB].length + 1) (frameA :: [frameB])) =
      (seqList 0
        (animStamps (expectedChunks anim2.LoopCount ([frameB].length + 1)
          (frameA :: [frameB]))).length).map writeUint32 :=
  encodeAll_seq_c2 codecA anim2 frameA [frameB]
    (by decide) (by decide) (by decide) (by decide) (by decide)
    (by
      intro f hf
      refine ⟨standalonePNG ihdr13 [idatA], rfl, ?_⟩
      have hfe : fetchPNGChunk (standalonePNG ihdr13 [idatA]) =
          GoRes.ok { ihdr := ihdr13, idats := [idatA] } := by decide
      cases hf with
      | head => exact hfe
      | tail _ h =>
        cases h with
        | head => exact hfe
        | tail _ h2 => cases h2)
    (by decide) (by decide) (by decide)

theorem doWrite_out (s : Sink) (st : WState) (b : List Byte) :
    ∃ tl, (doWrite s st b).1.out = st.out ++ tl := by
  cases h : s.accept st.out b with
  | none => exact ⟨b, by simp [doWrite, h]⟩
  | some code => exact ⟨[], by simp [doWrite, h]⟩

theorem writeChunk_out (s : Sink) (e : Enc) (b t : List Byte) :
    ∃ tl, (writeChunk s e b t).st.out = e.st.out ++ tl := by
  unfold writeChunk
  split
  · exact ⟨[], by simp⟩
  · split
    · exact ⟨[], by simp⟩
    · split
      · exact ⟨[], by simp⟩
      · obtain ⟨t1, h1⟩ := doWrite_out s e.st (writeUint32 b.length ++ t)
        rcases hw1 : doWrite s e.st (writeUint32 b.length ++ t) with ⟨st1, oe1⟩
        rw [hw1] at h1
        simp only at h1
        cases oe1 with
        | some er => exact ⟨t1, by simp [hw1, h1]⟩
        | none =>
          obtain ⟨t2, h2⟩ := doWrite_out s st1 b
          rcases hw2 : doWrite s st1 b with ⟨st2, oe2⟩
          rw [hw2] at h2
          simp only at h2
          cases oe2 with
          | some er => exact ⟨t1 ++ t2, by simp [hw1, hw2, h2, h1, List.append_assoc]⟩
          | none =>
            obtain ⟨t3, h3⟩ := doWrite_out s st2
              (writeUint32 (crc32Update (crc32Update 4294967295 t) b ^^^ 4294967295))
            rcases hw3 : doWrite s st2
                (writeUint32 (crc32Update (crc32Update 4294967295 t) b ^^^ 4294967295))
              with ⟨st3, oe3⟩
            rw [hw3] at h3
            simp only at h3
            exact ⟨t1 ++ (t2 ++ t3),
              by simp [hw1, hw2, hw3, h3, h2, h1, List.append_assoc]⟩

theorem foldl_out {g : Enc → List Byte → Enc}
    (hg : ∀ e x, ∃ tl, (g e x).st.out = e.st.out ++ tl) :
    ∀ (l : List (List Byte)) (e : Enc), ∃ tl, (l.foldl g e).st.out = e.st.out ++ tl := by
  intro l
  induction l with
  | nil => intro e; exact ⟨[], by simp⟩
  | cons x xs ih =>
    intro e
    obtain ⟨t2, h2⟩ := ih (g e x)
    obtain ⟨t1, h1⟩ := hg e x
    exact ⟨t1 ++ t2, by simp [List.foldl_cons, h2, h1, List.append_assoc]⟩

theorem writefcTL_out (s : Sink) (a : APNG) (i : Nat) (e : Enc) :
    ∃ tl, (writefcTL s a i e).st.out = e.st.out ++ tl := by
  unfold writefcTL
  split
  · exact ⟨[], by simp⟩
  · split
    · exact writeChunk_out s e _ tagfcTL
    · exact ⟨[], by simp⟩

theorem fdATStep_out (s : Sink) (e : Enc) (id : List Byte) :
    ∃ tl, (fdATStep s e id).st.out = e.st.out ++ tl := by
  unfold fdATStep
  split
  · exact ⟨[], by simp⟩
  · split
    · exact ⟨[], by simp⟩
    · obtain ⟨t1, h1⟩ := writeChunk_out s e (writeUint32 e.seqNum ++ id) tagfdAT
      exact ⟨t1, by simpa using h1⟩

theorem encodeFrames_out (codec : GoImage → Except String (List Byte)) (s : Sink) (a : APNG) :
    ∀ (l : List (Option GoImage)) (i : Nat) (e : Enc),
    ∃ tl, (encodeFrames codec s a l i e).2.out = e.st.out ++ tl := by
  intro l
  induction l with
  | nil =>
    intro i e
    obtain ⟨t1, h1⟩ := writeChunk_out s e [] tagIEND
    exact ⟨t1, by simpa [encodeFrames, writeIEND] using h1⟩
  | cons o rest ih =>
    intro i e
    by_cases hp : e.pan = true
    · exact ⟨[], by simp [encodeFrames, hp]⟩
    · cases o with
      | none => exact ⟨[], by simp [encodeFrames, hp]⟩
      | some img =>
        cases hc : codec img with
        | error m => exact ⟨[], by simp [encodeFrames, hp, hc]⟩
        | ok bb =>
          cases hf : fetchPNGChunk bb with
          | err er => exact ⟨[], by simp [encodeFrames, hp, hc, hf]⟩
          | panicked => exact ⟨[], by simp [encodeFrames, hp, hc, hf]⟩
          | ok pc =>
            have hp2 : e.pan = false := by simpa using hp
            by_cases hi : i = 0
            · obtain ⟨t1, h1⟩ := writeChunk_out s
                { seqNum := e.seqNum, ihdr := pc.ihdr, idats := pc.idats, err := e.err,
                  pan := false, st := e.st } pc.ihdr tagIHDR
              obtain ⟨t2, h2⟩ := writeChunk_out s
                (writeIHDR s { seqNum := e.seqNum, ihdr := pc.ihdr, idats := pc.idats,
                               err := e.err, pan := false, st := e.st })
                (writeUint32 a.Image.length ++ writeUint32 a.LoopCount) tagacTL
              obtain ⟨t3, h3⟩ := writefcTL_out s a 0
                (writeacTL s a (writeIHDR s { seqNum := e.seqNum, ihdr := pc.ihdr,
                                              idats := pc.idats, err := e.err, pan := false,
                                              st := e.st }))
              obtain ⟨t4, h4⟩ := foldl_out
                (fun e2 x => writeChunk_out s e2 x tagIDAT)
                ((writefcTL s a 0
                  (writeacTL s a (writeIHDR s { seqNum := e.seqNum, ihdr := pc.ihdr,
                                                idats := pc.idats, err := e.err, pan := false,
                                                st := e.st }))).idats)
                (writefcTL s a 0
                  (writeacTL s a (writeIHDR s { seqNum := e.seqNum, ihdr := pc.ihdr,
                                                idats := pc.idats, err := e.err, pan := false,
                                                st := e.st })))
              obtain ⟨t5, h5⟩ := ih (i + 1)
                (writeIDATs s (writefcTL s a 0
                  (writeacTL s a (writeIHDR s { seqNum := e.seqNum, ihdr := pc.ihdr,
                                                idats := pc.idats, err := e.err, pan := false,
                                                st := e.st }))))
              refine ⟨t1 ++ (t2 ++ (t3 ++ (t4 ++ t5))), ?_⟩
              simp only [encodeFrames, hp2, Bool.false_eq_true, if_false, hc, hf, if_pos hi]
              rw [h5]
              simp only [writeIDATs]
              rw [h4, h3]
              simp only [writeacTL]
              rw [h2]
              simp only [writeIHDR]
              rw [h1]
              try simp [List.append_assoc]
            · obtain ⟨t3, h3⟩ := writefcTL_out s a i
                { seqNum := e.seqNum, ihdr := pc.ihdr, idats := pc.idats, err := e.err,
                  pan := false, st := e.st }
              obtain ⟨t4, h4⟩ := foldl_out (fun e2 x => fdATStep_out s e2 x)
                ((writefcTL s a i { seqNum := e.seqNum, ihdr := pc.ihdr, idats := pc.idats,
                                    err := e.err, pan := false, st := e.st }).idats)
                (writefcTL s a i { seqNum := e.seqNum, ihdr := pc.ihdr, idats := pc.idats,
                                   err := e.err, pan := false, st := e.st })
              obtain ⟨t5, h5⟩ := ih (i + 1)
                (writefdATs s (writefcTL s a i { seqNum := e.seqNum, ihdr := pc.ihdr,
                                                 idats := pc.idats, err := e.err, pan := false,
                                                 st := e.st }))
              refine ⟨t3 ++ (t4 ++ t5), ?_⟩
              simp only [encodeFrames, hp2, Bool.false_eq_true, if_false, hc, hf, if_neg hi]
              rw [h5]
              simp only [writefdATs]
              rw [h4, h3]
              try simp [List.append_assoc]

theorem specValid_iff (a : APNG) :
    specValid a ↔
      (a.Image.length ≠ 0 ∧ a.Image.length = a.Delay.length ∧
       (match a.Disposal with
        | some d => a.Image.length != d.length
        | none => false) = false ∧
       isSameColorModel a.Image = true ∧ fullfillFrameRegionConstraints a.Image = true) := by
  constructor
  · rintro ⟨h1, h2, h3, h4, h5, h6⟩
    have hne : a.Image.length ≠ 0 := fun h => h1 (List.length_eq_zero.mp h)
    refine ⟨hne, h2, ?_, ?_, ?_⟩
    · cases hd : a.Disposal with
      | none => rfl
      | some d => simp [h3 d hd]
    · cases hI : a.Image with
      | nil => exact absurd hI h1
      | cons o rest =>
        cases o with
        | none =>
          have := h4 none (by rw [hI]; exact List.mem_cons_self _ _)
          simp at this
        | some i0 =>
          simp only [isSameColorModel, List.all_eq_true]
          intro o ho
          have hmem : o ∈ a.Image := by rw [hI]; exact List.mem_cons_of_mem _ ho
          have hsome := h4 o hmem
          cases o with
          | none => simp at hsome
          | some i =>
            have h0mem : (some i0 : Option GoImage) ∈ a.Image := by
              rw [hI]; exact List.mem_cons_self _ _
            have hm := h5 (some i) hmem (some i0) h0mem i i0 rfl rfl
            simp [hm]
    · cases hI : a.Image with
      | nil => exact absurd hI h1
      | cons o rest =>
        cases o with
        | none =>
          have := h4 none (by rw [hI]; exact List.mem_cons_self _ _)
          simp at this
        | some i0 =>
          have hh : a.Image.head? = some (some i0) := by rw [hI]; rfl
          obtain ⟨⟨hx, hy⟩, htail⟩ := h6 i0 hh
          simp only [fullfillFrameRegionConstraints]
          rw [if_pos ⟨hx, hy⟩]
          simp only [List.all_eq_true]
          intro o ho
          have homem : o ∈ a.Image.tail := by rw [hI]; simpa using ho
          have hsome := h4 o (by rw [hI]; exact List.mem_cons_of_mem _ ho)
          cases o with
          | none => simp at hsome
          | some im =>
            have hprops := htail (some im) homem im rfl
            simp only [decide_eq_true_eq]
            exact hprops
  · rintro ⟨h1, h2, h3, h4, h5⟩
    have hne : a.Image ≠ [] := fun h => h1 (by simp [h])
    cases hI : a.Image with
    | nil => exact absurd hI hne
    | cons o rest =>
      rw [hI] at h4 h5
      cases o with
      | none => simp [isSameColorModel] at h4
      | some i0 =>
        simp only [isSameColorModel, List.all_eq_true] at h4
        simp only [fullfillFrameRegionConstraints] at h5
        split at h5
        case isFalse => exact absurd h5 (by simp)
        case isTrue hcond =>
        simp only [List.all_eq_true] at h5
        have key : ∀ o ∈ (some i0 :: rest : List (Option GoImage)), ∀ j, o = some j →
            j.Model = i0.Model := by
          intro o ho j hj
          cases ho with
          | head => cases hj; rfl
          | tail _ hmem =>
            have hk := h4 o hmem
            cases o with
            | none => simp at hk
            | some i =>
              cases hj
              simpa using hk
        refine ⟨hne, h2, ?_, ?_, ?_, ?_⟩
        · intro d hd
          rw [hd] at h3
          simpa using h3
        · intro o ho
          rw [hI] at ho
          cases ho with
          | head => simp
          | tail _ hmem =>
            have hk := h4 o hmem
            cases o with
            | none => simp at hk
            | some i => simp
        · intro o1 ho1 o2 ho2 i1 i2 e1 e2
          rw [hI] at ho1 ho2
          exact (key o1 ho1 i1 e1).trans (key o2 ho2 i2 e2).symm
        · intro j0 hj0
          rw [hI] at hj0
          simp only [List.head?_cons, Option.some.injEq] at hj0
          cases hj0
          refine ⟨hcond, ?_⟩
          intro o ho im him
          rw [hI] at ho
          simp only [List.tail_cons] at ho
          have hk := h5 o ho
          cases o with
          | none => simp at hk
          | some i =>
            cases him
            simpa using hk

/-- C3: with a sink that accepts every write, EncodeAll returns an error
having written no byte to the sink exactly when a structural validation
condition fails: zero frames; frame and delay lists of different lengths; a
supplied disposal list of a different length; a missing raster or color
models not all identical; frame 0 with a negative minimum coordinate; or a
later frame with a negative minimum or a maximum exceeding frame 0's on
either axis.  When every condition holds, writing begins. -/
theorem encodeAll_validation_c3 (codec : GoImage → Except String (List Byte)) (a : APNG) :
    ((EncodeAll codec okSink a).2.out = [] ∧
      ∃ er, (EncodeAll codec okSink a).1 = ERes.err er) ↔ ¬ specValid a := by
  rw [specValid_iff]
  by_cases h1 : a.Image.length = 0
  · refine iff_of_true ?_ ?_
    · unfold EncodeAll
      rw [if_pos h1]
      exact ⟨rfl, _, rfl⟩
    · rintro ⟨c1, _⟩; exact c1 h1
  · by_cases h2 : a.Image.length = a.Delay.length
    · by_cases h3 : (match a.Disposal with
                     | some d => a.Image.length != d.length
                     | none => false) = true
      · refine iff_of_true ?_ ?_
        · unfold EncodeAll
          rw [if_neg h1, if_neg (not_not_intro h2), if_pos h3]
          exact ⟨rfl, _, rfl⟩
        · rintro ⟨_, _, c3, _⟩; rw [c3] at h3; exact absurd h3 (by simp)
      · have h3f : (match a.Disposal with
                    | some d => a.Image.length != d.length
                    | none => false) = false := by
          cases hm : (match a.Disposal with
                      | some d => a.Image.length != d.length
                      | none => false) with
          | true => exact absurd hm h3
          | false => rfl
        by_cases h4 : isSameColorModel a.Image = true
        · by_cases h5 : fullfillFrameRegionConstraints a.Image = true
          · refine iff_of_false ?_ (not_not_intro ⟨h1, h2, h3f, h4, h5⟩)
            obtain ⟨tl, htl⟩ := encodeFrames_out codec okSink a a.Image 0
              { seqNum := 0, ihdr := [], idats := [], err := none, pan := false,
                st := { out := pngHeaderBytes, log := [(pngHeaderBytes, none)] } }
            have hout : (EncodeAll codec okSink a).2.out = pngHeaderBytes ++ tl := by
              have hdw : doWrite okSink wst0 pngHeaderBytes =
                  ({ out := pngHeaderBytes, log := [(pngHeaderBytes, none)] }, none) := rfl
              unfold EncodeAll
              rw [if_neg h1, if_neg (not_not_intro h2), if_neg h3, if_neg (by simp [h4]),
                if_neg (by simp [h5]), hdw]
              simpa using htl
            rintro ⟨hempty, _⟩
            rw [hout] at hempty
            simp [pngHeaderBytes] at hempty
          · refine iff_of_true ?_ ?_
            · have h5f : fullfillFrameRegionConstraints a.Image = false := by
                cases hm : fullfillFrameRegionConstraints a.Image with
                | true => exact absurd hm h5
                | false => rfl
              unfold EncodeAll
              rw [if_neg h1, if_neg (not_not_intro h2), if_neg h3, if_neg (by simp [h4]),
                if_pos h5f]
              exact ⟨rfl, _, rfl⟩
            · rintro ⟨_, _, _, _, c5⟩; exact h5 c5
        · refine iff_of_true ?_ ?_
          · have h4f : isSameColorModel a.Image = false := by
              cases hm : isSameColorModel a.Image with
              | true => exact absurd hm h4
              | false => rfl
            unfold EncodeAll
            rw [if_neg h1, if_neg (not_not_intro h2), if_neg h3, if_pos h4f]
            exact ⟨rfl, _, rfl⟩
          · rintro ⟨_, _, _, c4, _⟩; exact h4 c4
    · refine iff_of_true ?_ ?_
      · unfold EncodeAll
        rw [if_neg h1, if_pos h2]
        exact ⟨rfl, _, rfl⟩
      · rintro ⟨_, c2, _⟩; exact h2 c2

theorem writeacTL_congr (s : Sink) (a1 a2 : APNG) (e : Enc)
    (himg : a1.Image = a2.Image) (hloop : a1.LoopCount = a2.LoopCount) :
    writeacTL s a1 e = writeacTL s a2 e := by
  unfold writeacTL
  rw [himg, hloop]

theorem writefcTL_congr (s : Sink) (a1 a2 : APNG) (i : Nat) (e : Enc)
    (himg : a1.Image = a2.Image) (hdel : a1.Delay = a2.Delay) :
    writefcTL s a1 i e = writefcTL s a2 i e := by
  unfold writefcTL
  rw [himg, hdel]

theorem encodeFrames_congr (codec : GoImage → Except String (List Byte)) (s : Sink)
    (a1 a2 : APNG) (himg : a1.Image = a2.Image) (hdel : a1.Delay = a2.Delay)
    (hloop : a1.LoopCount = a2.LoopCount) :
    ∀ (l : List (Option GoImage)) (i : Nat) (e : Enc),
    encodeFrames codec s a1 l i e = encodeFrames codec s a2 l i e := by
  intro l
  induction l with
  | nil => intro i e; rfl
  | cons o rest ih =>
    intro i e
    by_cases hp : e.pan = true
    · simp [encodeFrames, hp]
    · have hp2 : e.pan = false := by simpa using hp
      simp only [encodeFrames, hp2, Bool.false_eq_true, if_false]
      cases o with
      | none => rfl
      | some img =>
        simp only
        cases codec img with
        | error m => rfl
        | ok bb =>
          simp only
          cases fetchPNGChunk bb with
          | err er => rfl
          | panicked => rfl
          | ok pc =>
            simp only
            by_cases hi : i = 0
            · rw [if_pos hi, if_pos hi,
                writeacTL_congr s a1 a2 _ himg hloop,
                writefcTL_congr s a1 a2 0 _ himg hdel, ih]
            · rw [if_neg hi, if_neg hi, writefcTL_congr s a1 a2 i _ himg hdel, ih]

/-- C5: every emitted fcTL carries dispose_op = 0 and blend_op = 0 (payload
bytes 24 and 25), whatever the caller-supplied disposal values are, and two
animations differing only in the contents of equally long disposal lists
make EncodeAll produce identical results byte for byte. -/
theorem disposal_ignored_c5 (codec : GoImage → Except String (List Byte)) (s : Sink)
    (a : APNG) (d1 d2 : List Nat) (h : d1.length = d2.length) :
    EncodeAll codec s { a with Disposal := some d1 } =
      EncodeAll codec s { a with Disposal := some d2 } ∧
    (∀ seq img dl, (fcTLPayload seq img dl).drop 24 = [0, 0]) := by
  constructor
  · unfold EncodeAll
    simp only [h]
    rw [encodeFrames_congr codec s
      { a with Disposal := some d1 } { a with Disposal := some d2 } rfl rfl rfl]
  · intro seq img dl
    simp [fcTLPayload, writeUint32, writeUint16]

/-- Witness for C5 at concrete animations with different disposal lists. -/
theorem disposal_ignored_c5_witness :
    (EncodeAll codecA okSink { anim2 with Disposal := some [1, 2] } =
      EncodeAll codecA okSink { anim2 with Disposal := some [0, 2] }) ∧
    (∀ seq img dl, (fcTLPayload seq img dl).drop 24 = [0, 0]) :=
  disposal_ignored_c5 codecA okSink anim2 [1, 2] [0, 2] rfl

theorem beU32_writeUint32_append (n : Nat) (r : List Byte) (h : n < 4294967296) :
    beU32 (writeUint32 n ++ r) = n := by
  simp only [writeUint32, List.cons_append, List.nil_append, beU32]
  omega

theorem chunkBytes_length (t b : List Byte) (ht : t.length = 4) :
    (chunkBytes t b).length = 12 + b.length := by
  simp [chunkBytes, writeUint32, ht]
  omega

theorem chunk_take8 (t b rest : List Byte) (ht : t.length = 4) :
    (chunkBytes t b ++ rest).take 8 = writeUint32 b.length ++ t ∧
    (chunkBytes t b ++ rest).drop 8 = b ++ (writeUint32 (crc32 (t ++ b)) ++ rest) := by
  have h8 : (writeUint32 b.length ++ t).length = 8 := by simp [writeUint32_length, ht]
  have he : chunkBytes t b ++ rest =
      (writeUint32 b.length ++ t) ++ (b ++ (writeUint32 (crc32 (t ++ b)) ++ rest)) := by
    simp [chunkBytes, List.append_assoc]
  constructor
  · rw [he, ← h8]; exact List.take_left _ _
  · rw [he, ← h8]; exact List.drop_left _ _

theorem drop4_crc (n : Nat) (rest : List Byte) :
    (writeUint32 n ++ rest).drop 4 = rest := by
  rw [← writeUint32_length n]
  exact List.drop_left _ _

theorem parse_step_IHDR (c : ChunkFetcher) (h rest : List Byte)
    (hbb : c.bb = chunkBytes tagIHDR h ++ rest) (h768 : h.length ≤ 768) :
    parsePNGChunk c = GoRes.ok { c with bb := rest, stage := dsSeenIHDR, ihdr := h } := by
  obtain ⟨ht8, hd8⟩ := chunk_take8 tagIHDR h rest rfl
  have hlen : h.length < 4294967296 := by omega
  have hbig : ¬ c.bb.length < 8 := by
    rw [hbb, List.length_append, chunkBytes_length tagIHDR h rfl]
    omega
  unfold parsePNGChunk
  rw [if_neg hbig]
  simp only [hbb, ht8, hd8]
  have htag : (writeUint32 h.length ++ tagIHDR).drop 4 = tagIHDR := by
    rw [← writeUint32_length h.length]
    exact List.drop_left _ _
  rw [htag, if_pos rfl, beU32_writeUint32_append h.length tagIHDR hlen]
  unfold parseIHDR
  rw [if_neg (Nat.not_lt.mpr h768)]
  have hblen : ¬ (h ++ (writeUint32 (crc32 (tagIHDR ++ h)) ++ rest)).length < h.length := by
    simp [List.length_append]
  rw [if_neg hblen]
  simp only [List.take_left, List.drop_left]
  rw [drop4_crc]

theorem parse_step_IDAT (c : ChunkFetcher) (id rest : List Byte)
    (hbb : c.bb = chunkBytes tagIDAT id ++ rest) (hlen : id.length < 4294967296) :
    parsePNGChunk c = GoRes.ok
      { c with bb := rest, stage := dsSeenIDAT, idats := c.idats ++ [id] } := by
  obtain ⟨ht8, hd8⟩ := chunk_take8 tagIDAT id rest rfl
  have hbig : ¬ c.bb.length < 8 := by
    rw [hbb, List.length_append, chunkBytes_length tagIDAT id rfl]
    omega
  unfold parsePNGChunk
  rw [if_neg hbig]
  simp only [hbb, ht8, hd8]
  have htag : (writeUint32 id.length ++ tagIDAT).drop 4 = tagIDAT := by
    rw [← writeUint32_length id.length]
    exact List.drop_left _ _
  rw [htag]
  rw [if_neg (by decide), if_neg (by decide), if_neg (by decide), if_pos rfl,
    beU32_writeUint32_append id.length tagIDAT hlen]
  unfold parseIDAT
  simp only [List.take_left, List.drop_left]
  rw [if_neg (by omega)]
  simp only
  rw [drop4_crc]

theorem parse_step_IEND (c : ChunkFetcher) (rest : List Byte)
    (hbb : c.bb = chunkBytes tagIEND [] ++ rest) :
    parsePNGChunk c = GoRes.ok { c with bb := rest, stage := dsSeenIEND } := by
  obtain ⟨ht8, hd8⟩ := chunk_take8 tagIEND [] rest rfl
  have hbig : ¬ c.bb.length < 8 := by
    rw [hbb, List.length_append, chunkBytes_length tagIEND [] rfl]
    omega
  unfold parsePNGChunk
  rw [if_neg hbig]
  simp only [hbb, ht8, hd8]
  have htag : (writeUint32 (0 : Nat) ++ tagIEND).drop 4 = tagIEND := by decide
  simp only [List.length_nil] at htag ⊢
  rw [htag]
  rw [if_neg (by decide), if_neg (by decide), if_neg (by decide), if_neg (by decide),
    if_pos rfl]
  unfold parseIEND
  simp only [List.nil_append]
  rw [drop4_crc]

theorem fetchLoop_succ (fuel : Nat) (c : ChunkFetcher) :
    fetchLoop (fuel + 1) c =
      if c.stage = dsSeenIEND then GoRes.ok { ihdr := c.ihdr, idats := c.idats }
      else
        match parsePNGChunk c with
        | GoRes.ok c' => fetchLoop fuel c'
        | GoRes.err e => GoRes.err (if e = GoErr.eof then GoErr.unexpectedEOF else e)
        | GoRes.panicked => GoRes.panicked := rfl

theorem fetchLoop_run (ids : List (List Byte)) : ∀ (fuel : Nat) (c : ChunkFetcher),
    c.stage ≠ dsSeenIEND →
    c.bb = bytesOfChunks (ids.map fun id => (tagIDAT, id)) ++ chunkBytes tagIEND [] →
    (∀ id ∈ ids, id.length < 4294967296) →
    c.bb.length < fuel →
    fetchLoop fuel c = GoRes.ok { ihdr := c.ihdr, idats := c.idats ++ ids } := by
  induction ids with
  | nil =>
    intro fuel c hs hbb hsz hf
    have hL : c.bb.length = 12 := by
      rw [hbb]
      simp [bytesOfChunks, chunkBytes_length tagIEND [] rfl]
    cases fuel with
    | zero => omega
    | succ f =>
      simp only [fetchLoop, if_neg hs]
      rw [parse_step_IEND c [] (by simpa [bytesOfChunks] using hbb)]
      cases f with
      | zero => omega
      | succ f2 => simp [fetchLoop]
  | cons id t ih =>
    intro fuel c hs hbb hsz hf
    have hbb2 : c.bb = chunkBytes tagIDAT id ++
        (bytesOfChunks (t.map fun id => (tagIDAT, id)) ++ chunkBytes tagIEND []) := by
      rw [hbb]
      simp [bytesOfChunks, List.append_assoc]
    have hlen2 : c.bb.length = (12 + id.length) +
        (bytesOfChunks (t.map fun id => (tagIDAT, id)) ++ chunkBytes tagIEND []).length := by
      rw [hbb2, List.length_append, chunkBytes_length tagIDAT id rfl]
    cases fuel with
    | zero => omega
    | succ f =>
      simp only [fetchLoop, if_neg hs]
      rw [parse_step_IDAT c id _ hbb2 (hsz id (by simp))]
      simp only
      rw [ih f
        { bb := bytesOfChunks (t.map fun id => (tagIDAT, id)) ++ chunkBytes tagIEND [],
          stage := dsSeenIDAT, ihdr := c.ihdr, idats := c.idats ++ [id] }
        (by simp [dsSeenIDAT, dsSeenIEND]) rfl
        (fun x hx => hsz x (by simp [hx])) (by simp only; omega)]
      simp

theorem fetch_standalone (h : List Byte) (ids : List (List Byte))
    (h768 : h.length ≤ 768) (hsz : ∀ id ∈ ids, id.length < 4294967296) :
    fetchPNGChunk (standalonePNG h ids) = GoRes.ok { ihdr := h, idats := ids } := by
  have hdrop : (standalonePNG h ids).drop 8 =
      chunkBytes tagIHDR h ++
        (bytesOfChunks (ids.map fun id => (tagIDAT, id)) ++ chunkBytes tagIEND []) := by
    unfold standalonePNG
    have h8 : pngHeaderBytes.length = 8 := rfl
    rw [List.append_assoc, List.append_assoc, ← h8]
    exact List.drop_left _ _
  have hNlen : (standalonePNG h ids).length = 8 + ((standalonePNG h ids).drop 8).length := by
    simp only [List.length_drop]
    have h8le : 8 ≤ (standalonePNG h ids).length := by
      unfold standalonePNG
      rw [List.length_append, List.length_append, List.length_append]
      have hpl : pngHeaderBytes.length = 8 := rfl
      omega
    omega
  unfold fetchPNGChunk
  rw [fetchLoop_succ]
  rw [if_neg (by simp [dsStart, dsSeenIEND])]
  rw [parse_step_IHDR
    { bb := (standalonePNG h ids).drop 8, stage := dsStart, ihdr := [], idats := [] }
    h (bytesOfChunks (ids.map fun id => (tagIDAT, id)) ++ chunkBytes tagIEND [])
    hdrop h768]
  simp only
  rw [fetchLoop_run ids (standalonePNG h ids).length
    { bb := bytesOfChunks (ids.map fun id => (tagIDAT, id)) ++ chunkBytes tagIEND [],
      stage := dsSeenIHDR, ihdr := h, idats := [] }
    (by simp [dsSeenIHDR, dsSeenIEND]) rfl hsz ?flen]
  · simp
  case flen =>
    simp only
    rw [hNlen, hdrop]
    simp only [List.length_append, chunkBytes_length tagIHDR h rfl]
    omega

theorem reassembleSingle_eq (h : List Byte) (ids : List (List Byte))
    (hlen : h.length < 4294967296) (hsz : ∀ id ∈ ids, id.length < 4294967296) :
    reassembleSingle { ihdr := h, idats := ids } = standalonePNG h ids := by
  unfold reassembleSingle
  have hdw : doWrite okSink wst0 pngHeaderBytes =
      ({ out := pngHeaderBytes, log := [(pngHeaderBytes, none)] }, none) := rfl
  rw [hdw]
  simp only
  have s1 : writeIHDR okSink
      { seqNum := 0, ihdr := h, idats := ids, err := none, pan := false,
        st := { out := pngHeaderBytes, log := [(pngHeaderBytes, none)] } } =
      { seqNum := 0, ihdr := h, idats := ids, err := none, pan := false,
        st := { out := pngHeaderBytes ++ chunkBytes tagIHDR h,
                log := [(pngHeaderBytes, none)] ++ chunkLog tagIHDR h } } :=
    writeChunk_ok _ h tagIHDR rfl rfl hlen
  rw [s1]
  have s2 : writeIDATs okSink
      { seqNum := 0, ihdr := h, idats := ids, err := none, pan := false,
        st := { out := pngHeaderBytes ++ chunkBytes tagIHDR h,
                log := [(pngHeaderBytes, none)] ++ chunkLog tagIHDR h } } =
      { seqNum := 0, ihdr := h, idats := ids, err := none, pan := false,
        st := { out := pngHeaderBytes ++ chunkBytes tagIHDR h
                  ++ bytesOfChunks (ids.map fun id => (tagIDAT, id)),
                log := [(pngHeaderBytes, none)] ++ chunkLog tagIHDR h
                  ++ logOfChunks (ids.map fun id => (tagIDAT, id)) } } :=
    writeIDATs_ok _ rfl rfl hsz
  rw [s2]
  have s3 : writeIEND okSink
      { seqNum := 0, ihdr := h, idats := ids, err := none, pan := false,
        st := { out := pngHeaderBytes ++ chunkBytes tagIHDR h
                  ++ bytesOfChunks (ids.map fun id => (tagIDAT, id)),
                log := [(pngHeaderBytes, none)] ++ chunkLog tagIHDR h
                  ++ logOfChunks (ids.map fun id => (tagIDAT, id)) } } =
      { seqNum := 0, ihdr := h, idats := ids, err := none, pan := false,
        st := { out := pngHeaderBytes ++ chunkBytes tagIHDR h
                  ++ bytesOfChunks (ids.map fun id => (tagIDAT, id))
                  ++ chunkBytes tagIEND [],
                log := [(pngHeaderBytes, none)] ++ chunkLog tagIHDR h
                  ++ logOfChunks (ids.map fun id => (tagIDAT, id))
                  ++ chunkLog tagIEND [] } } :=
    writeChunk_ok _ [] tagIEND rfl rfl (by simp)
  rw [s3]
  simp [standalonePNG, List.append_assoc]

/-- Counterexample for C7: pltePNG is a completely valid standalone
single-frame paletted PNG (correct lengths and CRCs throughout, built from
the checksummed chunk layout), yet the chunk reader cannot even decompose
it: the empty PLTE handler leaves the palette payload in the stream, the
reader loses chunk alignment, and decomposition fails — so decomposing and
reassembling under the single-frame path does not reproduce every
standalone single-frame PNG buffer. -/
theorem roundtrip_plte_cx_c7 :
    fetchPNGChunk pltePNG = GoRes.err GoErr.unexpectedEOF := by decide

/-- C7 (amended): every standalone single-frame PNG consisting of the
signature, an IHDR chunk (of the usual bounded size), IDAT chunks and the
trailer — with no palette, transparency or other ancillary chunks —
decomposes into its header and data payloads, and reassembling those under
the core's own single-frame writing path reproduces the PNG byte for
byte. -/
theorem roundtrip_c7 (h : List Byte) (ids : List (List Byte))
    (h768 : h.length ≤ 768) (hsz : ∀ id ∈ ids, id.length < 4294967296) :
    fetchPNGChunk (standalonePNG h ids) = GoRes.ok { ihdr := h, idats := ids } ∧
    reassembleSingle { ihdr := h, idats := ids } = standalonePNG h ids :=
  ⟨fetch_standalone h ids h768 hsz, reassembleSingle_eq h ids (by omega) hsz⟩

/-- Witness for C7 at a concrete 1x1 grayscale PNG. -/
theorem roundtrip_c7_witness :
    fetchPNGChunk (standalonePNG ihdr13 [idatA]) =
      GoRes.ok { ihdr := ihdr13, idats := [idatA] } ∧
    reassembleSingle { ihdr := ihdr13, idats := [idatA] } = standalonePNG ihdr13 [idatA] :=
  roundtrip_c7 ihdr13 [idatA] (by decide) (by decide)

/-- C8 (amended): on a successful parse of one chunk, an IHDR or IDAT tag
consumes the 8-byte prefix, the declared payload and 4 further bytes in
place of the CRC; every other dispatched tag — PLTE and tRNS (whose
handlers are empty todo stubs), IEND, and unrecognized tags — consumes only
the prefix plus 4 bytes, leaving any declared payload in the stream, so the
reader stays aligned after such a chunk only when its declared length is
zero. -/
theorem parse_consumption_c8 (c c' : ChunkFetcher)
    (h : parsePNGChunk c = GoRes.ok c') :
    ((c.bb.take 8).drop 4 = tagIHDR ∨ (c.bb.take 8).drop 4 = tagIDAT →
      c'.bb = (c.bb.drop (8 + beU32 (c.bb.take 8))).drop 4) ∧
    (¬((c.bb.take 8).drop 4 = tagIHDR ∨ (c.bb.take 8).drop 4 = tagIDAT) →
      c'.bb = (c.bb.drop 8).drop 4) := by
  unfold parsePNGChunk at h
  split at h
  · exact absurd h (by simp)
  · simp only at h
    split at h
    · rename_i c2 heq
      simp only [GoRes.ok.injEq] at h
      subst h
      split at heq
      · rename_i htag
        unfold parseIHDR at heq
        split at heq
        · exact absurd heq (by simp)
        · split at heq
          · exact absurd heq (by simp)
          · simp only [GoRes.ok.injEq] at heq
            subst heq
            constructor
            · intro _
              simp only [List.drop_drop]
            · intro hn
              exact absurd (Or.inl htag) hn
      · rename_i hnIHDR
        split at heq
        · rename_i hPLTE
          simp only [GoRes.ok.injEq] at heq
          subst heq
          refine ⟨fun hor => ?_, fun _ => rfl⟩
          rcases hor with h1 | h1
          · exact absurd h1 hnIHDR
          · rw [hPLTE] at h1
            exact absurd h1 (by decide)
        · rename_i hnPLTE
          split at heq
          · rename_i htRNS
            simp only [GoRes.ok.injEq] at heq
            subst heq
            refine ⟨fun hor => ?_, fun _ => rfl⟩
            rcases hor with h1 | h1
            · exact absurd h1 hnIHDR
            · rw [htRNS] at h1
              exact absurd h1 (by decide)
          · rename_i hntRNS
            split at heq
            · rename_i hIDAT
              unfold parseIDAT at heq
              split at heq
              · exact absurd heq (by simp)
              · simp only [GoRes.ok.injEq] at heq
                subst heq
                constructor
                · intro _
                  simp only [List.drop_drop]
                · intro hn
                  exact absurd (Or.inr hIDAT) hn
            · rename_i hnIDAT
              split at heq
              · unfold parseIEND at heq
                simp only [GoRes.ok.injEq] at heq
                subst heq
                refine ⟨fun hor => ?_, fun _ => rfl⟩
                rcases hor with h1 | h1
                · exact absurd h1 hnIHDR
                · exact absurd h1 hnIDAT
              · simp only [GoRes.ok.injEq] at heq
                subst heq
                refine ⟨fun hor => ?_, fun _ => rfl⟩
                rcases hor with h1 | h1
                · exact absurd h1 hnIHDR
                · exact absurd h1 hnIDAT
    · exact absurd h (by simp)
    · exact absurd h (by simp)

set_option maxRecDepth 4096 in
/-- Counterexample for C8: at a PLTE chunk of declared length 3 with a
correct CRC, the reader consumes only 12 bytes, not the 8 + 3 + 4 the claim
requires, so it is not aligned at the next chunk afterwards. -/
theorem parse_plte_cx_c8 :
    parsePNGChunk plteState = GoRes.ok { plteState with bb := plteState.bb.drop 12 } ∧
    plteState.bb.drop 12 ≠ plteState.bb.drop (8 + 3 + 4) := by decide

set_option maxRecDepth 4096 in
/-- Witness for C8 at the concrete PLTE state. -/
theorem parse_consumption_c8_witness :
    ({ plteState with bb := plteState.bb.drop 12 } : ChunkFetcher).bb =
      (plteState.bb.drop 8).drop 4 :=
  (parse_consumption_c8 plteState { plteState with bb := plteState.bb.drop 12 }
    (by decide)).2 (by decide)

theorem parsePNGChunk_err (c : ChunkFetcher) (e : GoErr)
    (h : parsePNGChunk c = GoRes.err e) : e = GoErr.eof ∨ e = GoErr.unexpectedEOF := by
  unfold parsePNGChunk at h
  split at h
  · simp only [GoRes.err.injEq] at h
    split at h
    · exact Or.inl h.symm
    · exact Or.inr h.symm
  · simp only at h
    split at h
    · exact absurd h (by simp)
    · rename_i e2 heq
      simp only [GoRes.err.injEq] at h
      subst h
      split at heq
      · unfold parseIHDR at heq
        split at heq
        · exact absurd heq (by simp)
        · split at heq
          · simp only [GoRes.err.injEq] at heq
            subst heq
            split
            · exact Or.inl rfl
            · exact Or.inr rfl
          · exact absurd heq (by simp)
      · split at heq
        · exact absurd heq (by simp)
        · split at heq
          · exact absurd heq (by simp)
          · split at heq
            · unfold parseIDAT at heq
              split at heq
              · simp only [GoRes.err.injEq] at heq
                exact Or.inl heq.symm
              · exact absurd heq (by simp)
            · split at heq
              · unfold parseIEND at heq
                exact absurd heq (by simp)
              · exact absurd heq (by simp)
    · exact absurd h (by simp)

theorem fetchLoop_err (fuel : Nat) : ∀ (c : ChunkFetcher) (er : GoErr),
    fetchLoop fuel c = GoRes.err er → er = GoErr.unexpectedEOF := by
  induction fuel with
  | zero =>
    intro c er h
    simp only [fetchLoop, GoRes.err.injEq] at h
    exact h.symm
  | succ f ih =>
    intro c er h
    rw [fetchLoop_succ] at h
    split at h
    · exact absurd h (by simp)
    · rcases hp : parsePNGChunk c with c' | e | _ <;> rw [hp] at h
      · exact ih c' er h
      · simp only [GoRes.err.injEq] at h
        rcases parsePNGChunk_err c e hp with he | he
        · subst he
          simpa using h.symm
        · subst he
          simpa using h.symm
      · exact absurd h (by simp)

/-- C9 (amended): the chunk reader does fail when fewer bytes remain than a
chunk's declared length, and does fail when the input ends before an IEND
chunk appears, but the two conditions are not surfaced as distinguishable
errors: every error fetchPNGChunk returns is the single io.ErrUnexpectedEOF
(the loop converts io.EOF into it). -/
theorem fetch_err_unexpectedEOF_c9 (bb : List Byte) (er : GoErr)
    (h : fetchPNGChunk bb = GoRes.err er) : er = GoErr.unexpectedEOF :=
  fetchLoop_err (bb.length + 1) _ er h

/-- Counterexample for C9: a buffer whose IDAT declares more bytes than
remain (truncation) and a buffer that ends cleanly with no trailer both
fail with the very same error value, so the two conditions are not
distinguishable. -/
theorem fetch_err_cx_c9 :
    fetchPNGChunk truncPNG = GoRes.err GoErr.unexpectedEOF ∧
    fetchPNGChunk noEndPNG = GoRes.err GoErr.unexpectedEOF ∧
    fetchPNGChunk truncPNG = fetchPNGChunk noEndPNG := by decide

/-- Witness for C9 at the concrete truncated buffer. -/
theorem fetch_err_unexpectedEOF_c9_witness :
    fetchPNGChunk noEndPNG = GoRes.err GoErr.unexpectedEOF ∧
    GoErr.unexpectedEOF = GoErr.unexpectedEOF :=
  ⟨by decide, fetch_err_unexpectedEOF_c9 noEndPNG GoErr.unexpectedEOF (by decide)⟩

/-- C10: parseIHDR reads the declared header length through the fixed
768-byte temporary buffer c.tmp[:length]; any declared length of at most
768 stays in bounds and never panics (the standard encoder's IHDR payload
is 13 bytes), while a declared length above 768 is an out-of-bounds slice
panic, not a returned error. -/
theorem parseIHDR_bound_c10 (c : ChunkFetcher) (len : Nat) :
    (len ≤ 768 → parseIHDR c len ≠ GoRes.panicked) ∧
    (768 < len → parseIHDR c len = GoRes.panicked) := by
  constructor
  · intro hle
    unfold parseIHDR
    rw [if_neg (Nat.not_lt.mpr hle)]
    split <;> simp
  · intro hgt
    unfold parseIHDR
    rw [if_pos hgt]

/-- Witness for C10 at the boundary lengths 768 and 769. -/
theorem parseIHDR_bound_c10_witness :
    (parseIHDR cf0 768 ≠ GoRes.panicked) ∧ (parseIHDR cf0 769 = GoRes.panicked) :=
  ⟨(parseIHDR_bound_c10 cf0 768).1 (by decide),
   (parseIHDR_bound_c10 cf0 769).2 (by decide)⟩

theorem NoFail_append_ok (l : List (List Byte × Option Nat)) (b : List Byte)
    (h : NoFail l) : NoFail (l ++ [(b, none)]) := by
  intro x hx
  rcases List.mem_append.mp hx with h1 | h1
  · exact h x h1
  · rw [List.mem_singleton] at h1
    subst h1
    rfl

theorem nil_ne_decomp (l₁ l₂ : List (List Byte × Option Nat)) (x : List Byte × Option Nat) :
    ([] : List (List Byte × Option Nat)) ≠ l₁ ++ x :: l₂ := by
  intro h
  have h2 := List.append_eq_nil.mp h.symm
  exact List.cons_ne_nil x l₂ h2.2

theorem NoFail_last (l l₁ l₂ : List (List Byte × Option Nat))
    (x y : List Byte × Option Nat)
    (h : l ++ [x] = l₁ ++ y :: l₂) (hnf : NoFail l) (hy : y.2 ≠ none) :
    l₂ = [] ∧ l₁ = l ∧ y = x := by
  rcases List.eq_nil_or_concat l₂ with rfl | ⟨L, z, rfl⟩
  · obtain ⟨h3, h4⟩ := List.append_inj' h rfl
    injection h4 with h5 _
    exact ⟨rfl, h3.symm, h5.symm⟩
  · rw [List.concat_eq_append] at h
    have hh : l₁ ++ y :: (L ++ [z]) = (l₁ ++ y :: L) ++ [z] := by simp
    rw [hh] at h
    obtain ⟨h3, -⟩ := List.append_inj' h rfl
    have hmem : y ∈ l := by
      rw [h3]
      exact List.mem_append.mpr (Or.inr (List.mem_cons_self _ _))
    exact absurd (hnf y hmem) hy

theorem doWrite_split (s : Sink) (st : WState) (b : List Byte) (st' : WState)
    (oe : Option GoErr) (h : doWrite s st b = (st', oe)) :
    (oe = none ∧ st'.log = st.log ++ [(b, none)]) ∨
    (∃ k, oe = some (GoErr.sink k) ∧ st'.log = st.log ++ [(b, some k)]) := by
  unfold doWrite at h
  cases ha : s.accept st.out b with
  | none =>
    simp only [ha] at h
    injection h with h1 h2
    left
    exact ⟨h2.symm, by rw [← h1]⟩
  | some code =>
    simp only [ha] at h
    injection h with h1 h2
    right
    exact ⟨code, h2.symm, by rw [← h1]⟩

/-- writeChunk preserves the sink-failure invariant: under the sticky error
it writes nothing, and otherwise it stops at the first failed write. -/
theorem writeChunk_inv (s : Sink) (e : Enc) (b t : List Byte) (h : EncInv e) :
    EncInv (writeChunk s e b t) := by
  unfold writeChunk
  by_cases hpan : e.pan = true
  · rw [if_pos hpan]; exact h
  rw [if_neg hpan]
  by_cases herr : e.err.isSome = true
  · rw [if_pos herr]; exact h
  rw [if_neg herr]
  have henone : e.err = none := by
    cases he : e.err with
    | none => rfl
    | some er => rw [he] at herr; simp at herr
  have hnf : NoFail e.st.log := by
    rcases h with ⟨hnf, _⟩ | ⟨l, bx, kx, _, _, hee⟩
    · exact hnf
    · rw [hee] at henone; exact Option.noConfusion henone
  by_cases hlen : 4294967296 ≤ b.length
  · rw [if_pos hlen]
    refine Or.inl ⟨hnf, ?_⟩
    intro k hk
    simp at hk
  rw [if_neg hlen]
  rcases h1 : doWrite s e.st (writeUint32 b.length ++ t) with ⟨st1, oe1⟩
  cases oe1 with
  | some er =>
    show EncInv { e with st := st1, err := some er }
    rcases doWrite_split s e.st _ st1 _ h1 with ⟨hno, _⟩ | ⟨k, hoe, hlog⟩
    · exact Option.noConfusion hno
    · exact Or.inr ⟨e.st.log, _, k, hlog, hnf, hoe⟩
  | none =>
    rcases doWrite_split s e.st _ st1 _ h1 with ⟨_, hlog1⟩ | ⟨k, hoe1, _⟩
    swap
    · exact Option.noConfusion hoe1
    show EncInv (match doWrite s st1 b with
      | (st2, some er) => { e with st := st2, err := some er }
      | (st2, none) =>
        match doWrite s st2
            (writeUint32 (crc32Update (crc32Update 4294967295 t) b ^^^ 4294967295)) with
        | (st3, oe) => { e with st := st3, err := oe })
    rcases h2 : doWrite s st1 b with ⟨st2, oe2⟩
    cases oe2 with
    | some er =>
      show EncInv { e with st := st2, err := some er }
      rcases doWrite_split s st1 b st2 _ h2 with ⟨hno, _⟩ | ⟨k, hoe, hlog2⟩
      · exact Option.noConfusion hno
      · refine Or.inr ⟨st1.log, _, k, hlog2, ?_, hoe⟩
        rw [hlog1]
        exact NoFail_append_ok _ _ hnf
    | none =>
      rcases doWrite_split s st1 b st2 _ h2 with ⟨_, hlog2⟩ | ⟨k, hoe2, _⟩
      swap
      · exact Option.noConfusion hoe2
      show EncInv (match doWrite s st2
          (writeUint32 (crc32Update (crc32Update 4294967295 t) b ^^^ 4294967295)) with
        | (st3, oe) => { e with st := st3, err := oe })
      rcases h3 : doWrite s st2
          (writeUint32 (crc32Update (crc32Update 4294967295 t) b ^^^ 4294967295)) with ⟨st3, oe3⟩
      show EncInv { e with st := st3, err := oe3 }
      rcases doWrite_split s st2 _ st3 oe3 h3 with ⟨hno3, hlog3⟩ | ⟨k, hoe3, hlog3⟩
      · refine Or.inl ⟨?_, ?_⟩
        · show NoFail st3.log
          rw [hlog3, hlog2, hlog1]
          exact NoFail_append_ok _ _ (NoFail_append_ok _ _ (NoFail_append_ok _ _ hnf))
        · intro k hk
          have hk2 : oe3 = some (GoErr.sink k) := hk
          rw [hno3] at hk2
          exact Option.noConfusion hk2
      · refine Or.inr ⟨st2.log, _, k, hlog3, ?_, hoe3⟩
        rw [hlog2, hlog1]
        exact NoFail_append_ok _ _ (NoFail_append_ok _ _ hnf)

theorem writefcTL_inv (s : Sink) (a : APNG) (i : Nat) (e : Enc) (h : EncInv e) :
    EncInv (writefcTL s a i e) := by
  unfold writefcTL
  split
  · exact h
  · split
    all_goals first
      | exact writeChunk_inv s e _ tagfcTL h
      | exact h

theorem fdATStep_inv (s : Sink) (e : Enc) (id : List Byte) (h : EncInv e) :
    EncInv (fdATStep s e id) := by
  unfold fdATStep
  split
  · exact h
  · split
    · exact h
    · exact writeChunk_inv s e _ tagfdAT h

theorem foldl_chunk_inv (s : Sink) (t : List Byte) :
    ∀ (l : List (List Byte)) (e : Enc), EncInv e →
    EncInv (l.foldl (fun acc id => writeChunk s acc id t) e) := by
  intro l
  induction l with
  | nil => intro e h; exact h
  | cons x r ih =>
    intro e h
    rw [List.foldl_cons]
    exact ih _ (writeChunk_inv s e x t h)

theorem foldl_fdAT_inv (s : Sink) :
    ∀ (l : List (List Byte)) (e : Enc), EncInv e →
    EncInv (l.foldl (fdATStep s) e) := by
  intro l
  induction l with
  | nil => intro e h; exact h
  | cons x r ih =>
    intro e h
    rw [List.foldl_cons]
    exact ih _ (fdATStep_inv s e x h)

theorem foldl_chunk_pan (s : Sink) (t : List Byte) :
    ∀ (l : List (List Byte)) (e : Enc),
    (l.foldl (fun acc id => writeChunk s acc id t) e).pan = e.pan := by
  intro l
  induction l with
  | nil => intro e; rfl
  | cons x r ih =>
    intro e
    rw [List.foldl_cons, ih]
    exact (writeChunk_fields s e x t).2.2.2

theorem foldl_fdAT_pan (s : Sink) :
    ∀ (l : List (List Byte)) (e : Enc),
    (∀ id ∈ l, 4 ≤ id.length) → e.pan = false →
    (l.foldl (fdATStep s) e).pan = false := by
  intro l
  induction l with
  | nil => intro e _ hp; exact hp
  | cons x r ih =>
    intro e h hp
    rw [List.foldl_cons]
    refine ih _ (fun y hy => h y (List.mem_cons_of_mem _ hy)) ?_
    unfold fdATStep
    rw [if_neg (show ¬ (e.pan = true) by simp [hp])]
    rw [if_neg (Nat.not_lt.mpr (h x (List.mem_cons_self _ _)))]
    exact ((writeChunk_fields s e (writeUint32 e.seqNum ++ x) tagfdAT).2.2.2).trans hp

theorem writefcTL_pan (s : Sink) (a : APNG) (i : Nat) (e : Enc) (oi : GoImage) (d : Nat)
    (hI : a.Image[i]? = some (some oi)) (hD : a.Delay[i]? = some d) :
    (writefcTL s a i e).pan = e.pan := by
  unfold writefcTL
  split
  · rfl
  · simp only [hI, hD]
    exact (writeChunk_fields s e (fcTLPayload e.seqNum oi d) tagfcTL).2.2.2

theorem writefcTL_idats (s : Sink) (a : APNG) (i : Nat) (e : Enc) :
    (writefcTL s a i e).idats = e.idats := by
  unfold writefcTL
  split
  · rfl
  · split
    all_goals first
      | exact (writeChunk_fields s e _ tagfcTL).2.2.1
      | rfl

/-- The frame-0 write group (IHDR, acTL, fcTL, IDATs) keeps the panic flag
clear and preserves the sink-failure invariant. -/
theorem frame0_inv (s : Sink) (a : APNG) (e : Enc) (oi : GoImage) (d : Nat)
    (hpan : e.pan = false) (hinv : EncInv e)
    (hI : a.Image[0]? = some (some oi)) (hD : a.Delay[0]? = some d) :
    (writeIDATs s (writefcTL s a 0 (writeacTL s a (writeIHDR s e)))).pan = false ∧
    EncInv (writeIDATs s (writefcTL s a 0 (writeacTL s a (writeIHDR s e)))) := by
  have hp1 : (writeIHDR s e).pan = false :=
    (writeChunk_fields s e e.ihdr tagIHDR).2.2.2.trans hpan
  have hp2 : (writeacTL s a (writeIHDR s e)).pan = false :=
    (writeChunk_fields s (writeIHDR s e) _ tagacTL).2.2.2.trans hp1
  have hp3 : (writefcTL s a 0 (writeacTL s a (writeIHDR s e))).pan = false :=
    (writefcTL_pan s a 0 _ oi d hI hD).trans hp2
  have hp4 : (writeIDATs s (writefcTL s a 0 (writeacTL s a (writeIHDR s e)))).pan = false :=
    (foldl_chunk_pan s tagIDAT _ _).trans hp3
  exact ⟨hp4, foldl_chunk_inv s tagIDAT _ _ (writefcTL_inv s a 0 _
    (writeChunk_inv s (writeIHDR s e) _ tagacTL (writeChunk_inv s e e.ihdr tagIHDR hinv)))⟩

/-- The later-frame write group (fcTL, fdATs) keeps the panic flag clear
(given data payloads of at least 4 bytes) and preserves the sink-failure
invariant. -/
theorem frameN_inv (s : Sink) (a : APNG) (i : Nat) (e : Enc) (oi : GoImage) (d : Nat)
    (ids : List (List Byte))
    (hpan : e.pan = false) (hinv : EncInv e) (hids : e.idats = ids)
    (hsz : ∀ id ∈ ids, 4 ≤ id.length)
    (hI : a.Image[i]? = some (some oi)) (hD : a.Delay[i]? = some d) :
    (writefdATs s (writefcTL s a i e)).pan = false ∧
    EncInv (writefdATs s (writefcTL s a i e)) := by
  have hp1 : (writefcTL s a i e).pan = false :=
    (writefcTL_pan s a i e oi d hI hD).trans hpan
  have hid : (writefcTL s a i e).idats = ids :=
    (writefcTL_idats s a i e).trans hids
  constructor
  · show ((writefcTL s a i e).idats.foldl (fdATStep s) (writefcTL s a i e)).pan = false
    rw [hid]
    exact foldl_fdAT_pan s ids _ hsz hp1
  · exact foldl_fdAT_inv s _ _ (writefcTL_inv s a i e hinv)

/-- Through the per-frame loop over an arbitrary sink, when the codec and
the chunk reader succeed on every frame and every later-frame data payload
has at least 4 bytes, the loop finishes without panicking, returns exactly
its final sticky error, and the sink-failure invariant holds at the end. -/
theorem encodeFrames_inv (codec : GoImage → Except String (List Byte)) (s : Sink) (a : APNG) :
    ∀ (fs : List FrameData) (i : Nat) (e : Enc),
    e.pan = false → EncInv e →
    a.Image.drop i = fs.map (fun f => (some f.img : Option GoImage)) →
    a.Delay.drop i = fs.map (fun f => f.d) →
    (∀ f ∈ fs, ∃ bb, codec f.img = Except.ok bb ∧ fetchPNGChunk bb = GoRes.ok f.pc) →
    (∀ f ∈ fs, ∀ id ∈ f.pc.idats, 4 ≤ id.length) →
    ∃ e1, encodeFrames codec s a (fs.map (fun f => (some f.img : Option GoImage))) i e =
        ((match e1.err with
          | none => ERes.ok
          | some er => ERes.err er), e1.st) ∧ EncInv e1 := by
  intro fs
  induction fs with
  | nil =>
    intro i e hpan hinv _ _ _ _
    refine ⟨writeIEND s e, ?_, writeChunk_inv s e [] tagIEND hinv⟩
    have hp : (writeIEND s e).pan = false :=
      (writeChunk_fields s e [] tagIEND).2.2.2.trans hpan
    simp only [List.map_nil, encodeFrames, hp, Bool.false_eq_true, if_false]
  | cons f rest ih =>
    intro i e hpan hinv hImg hDel hPipe hSize
    obtain ⟨bb, hbb, hfetch⟩ := hPipe f (by simp)
    have hI : a.Image[i]? = some (some f.img) := by
      rw [getElem?_eq_head_drop, hImg]; simp
    have hD : a.Delay[i]? = some f.d := by
      rw [getElem?_eq_head_drop, hDel]; simp
    have hImg2 : a.Image.drop (i + 1) = rest.map (fun f => (some f.img : Option GoImage)) := by
      rw [← List.drop_drop 1 i, hImg]; simp
    have hDel2 : a.Delay.drop (i + 1) = rest.map (fun f => f.d) := by
      rw [← List.drop_drop 1 i, hDel]; simp
    have hPipe2 : ∀ g ∈ rest,
        ∃ bb2, codec g.img = Except.ok bb2 ∧ fetchPNGChunk bb2 = GoRes.ok g.pc :=
      fun g hg => hPipe g (by simp [hg])
    have hSize2 : ∀ g ∈ rest, ∀ id ∈ g.pc.idats, 4 ≤ id.length :=
      fun g hg => hSize g (by simp [hg])
    simp only [List.map_cons, encodeFrames, hpan, Bool.false_eq_true, if_false]
    rw [hbb]
    simp only
    rw [hfetch]
    simp only
    by_cases hi : i = 0
    · rw [if_pos hi]
      subst hi
      obtain ⟨hp4, hv4⟩ := frame0_inv s a
        { seqNum := e.seqNum, ihdr := f.pc.ihdr, idats := f.pc.idats, err := e.err,
          pan := false, st := e.st } f.img f.d rfl hinv hI hD
      exact ih (0 + 1) _ hp4 hv4 hImg2 hDel2 hPipe2 hSize2
    · rw [if_neg hi]
      obtain ⟨hp4, hv4⟩ := frameN_inv s a i
        { seqNum := e.seqNum, ihdr := f.pc.ihdr, idats := f.pc.idats, err := e.err,
          pan := false, st := e.st } f.img f.d f.pc.idats rfl hinv rfl
        (fun id hid => hSize f (by simp) id hid) hI hD
      exact ih (i + 1) _ hp4 hv4 hImg2 hDel2 hPipe2 hSize2

/-- C6: once a write to the output sink fails during EncodeAll, the failure
is remembered and every later chunk write is suppressed, so (provided the
per-frame codec and decompose steps succeed, which would otherwise preempt
the sticky error) the failed attempt is the last entry of the write log,
every earlier attempt succeeded, and the call returns exactly that first
write error. -/
theorem encodeAll_sink_c6 (codec : GoImage → Except String (List Byte)) (s : Sink)
    (a : APNG) (fs : List FrameData)
    (hImg : a.Image = fs.map (fun f => (some f.img : Option GoImage)))
    (hDel : a.Delay = fs.map (fun f => f.d))
    (hPipe : ∀ f ∈ fs, ∃ bb, codec f.img = Except.ok bb ∧ fetchPNGChunk bb = GoRes.ok f.pc)
    (hSize : ∀ f ∈ fs, ∀ id ∈ f.pc.idats, 4 ≤ id.length)
    (l₁ l₂ : List (List Byte × Option Nat)) (b : List Byte) (k : Nat)
    (hLog : (EncodeAll codec s a).2.log = l₁ ++ (b, some k) :: l₂) :
    l₂ = [] ∧ NoFail l₁ ∧ (EncodeAll codec s a).1 = ERes.err (GoErr.sink k) := by
  by_cases h1 : a.Image.length = 0
  · have hE : (EncodeAll codec s a).2.log = [] := by
      unfold EncodeAll; rw [if_pos h1]; rfl
    rw [hE] at hLog
    exact absurd hLog (nil_ne_decomp l₁ l₂ (b, some k))
  by_cases h2 : a.Image.length ≠ a.Delay.length
  · have hE : (EncodeAll codec s a).2.log = [] := by
      unfold EncodeAll; rw [if_neg h1, if_pos h2]; rfl
    rw [hE] at hLog
    exact absurd hLog (nil_ne_decomp l₁ l₂ (b, some k))
  by_cases h3 : (match a.Disposal with
                 | some d => a.Image.length != d.length
                 | none => false) = true
  · have hE : (EncodeAll codec s a).2.log = [] := by
      unfold EncodeAll; rw [if_neg h1, if_neg h2, if_pos h3]; rfl
    rw [hE] at hLog
    exact absurd hLog (nil_ne_decomp l₁ l₂ (b, some k))
  by_cases h4 : isSameColorModel a.Image = false
  · have hE : (EncodeAll codec s a).2.log = [] := by
      unfold EncodeAll; rw [if_neg h1, if_neg h2, if_neg h3, if_pos h4]; rfl
    rw [hE] at hLog
    exact absurd hLog (nil_ne_decomp l₁ l₂ (b, some k))
  by_cases h5 : fullfillFrameRegionConstraints a.Image = false
  · have hE : (EncodeAll codec s a).2.log = [] := by
      unfold EncodeAll; rw [if_neg h1, if_neg h2, if_neg h3, if_neg h4, if_pos h5]; rfl
    rw [hE] at hLog
    exact absurd hLog (nil_ne_decomp l₁ l₂ (b, some k))
  rcases hdw : doWrite s wst0 pngHeaderBytes with ⟨st1, oe⟩
  have hE : EncodeAll codec s a = encodeFrames codec s a a.Image 0
      { seqNum := 0, ihdr := [], idats := [], err := oe, pan := false, st := st1 } := by
    unfold EncodeAll
    rw [if_neg h1, if_neg h2, if_neg h3, if_neg h4, if_neg h5, hdw]
  have hinv0 : EncInv ({ seqNum := 0, ihdr := [], idats := [], err := oe, pan := false, st := st1 } : Enc) := by
    rcases doWrite_split s wst0 pngHeaderBytes st1 oe hdw with ⟨hno, hlog⟩ | ⟨k0, hoe, hlog⟩
    · refine Or.inl ⟨?_, ?_⟩
      · show NoFail st1.log
        rw [hlog]
        intro x hx
        simp [wst0] at hx
        rw [hx]
      · intro k2 hk
        have hk2 : oe = some (GoErr.sink k2) := hk
        rw [hno] at hk2
        exact Option.noConfusion hk2
    · refine Or.inr ⟨[], pngHeaderBytes, k0, ?_, ?_, hoe⟩
      · show st1.log = [] ++ [(pngHeaderBytes, some k0)]
        rw [hlog]
        simp [wst0]
      · intro x hx
        exact absurd hx (List.not_mem_nil x)
  have hdropI : a.Image.drop 0 = fs.map (fun f => (some f.img : Option GoImage)) := by
    rw [List.drop_zero]; exact hImg
  have hdropD : a.Delay.drop 0 = fs.map (fun f => f.d) := by
    rw [List.drop_zero]; exact hDel
  obtain ⟨eF, hEq, hInv⟩ := encodeFrames_inv codec s a fs 0 _ rfl hinv0 hdropI hdropD hPipe hSize
  have hAll : EncodeAll codec s a =
      ((match eF.err with
        | none => ERes.ok
        | some er => ERes.err er), eF.st) := by
    rw [hE, hImg]; exact hEq
  have hLog2 : eF.st.log = l₁ ++ (b, some k) :: l₂ := by
    rw [hAll] at hLog; exact hLog
  rcases hInv with ⟨hnf, hns⟩ | ⟨l, b2, k2, hlog2, hnf2, herr2⟩
  · exfalso
    have hmem : ((b, some k) : List Byte × Option Nat) ∈ eF.st.log := by
      rw [hLog2]
      exact List.mem_append.mpr (Or.inr (List.mem_cons_self _ _))
    have hbad := hnf _ hmem
    simp at hbad
  · rw [hlog2] at hLog2
    obtain ⟨hl2, hl1, hxy⟩ := NoFail_last l l₁ l₂ (b2, some k2) (b, some k) hLog2 hnf2 (by simp)
    injection hxy with hb hk2
    injection hk2 with hkk
    subst hkk
    refine ⟨hl2, ?_, ?_⟩
    · rw [hl1]; exact hnf2
    · rw [hAll]
      show (match eF.err with
            | none => ERes.ok
            | some er => ERes.err er) = ERes.err (GoErr.sink k)
      rw [herr2]

set_option maxRecDepth 4096 in
/-- C6 counterexample: with a sink that fails every write and a codec that
fails, the signature write fails and is logged, yet EncodeAll returns the
wrapped codec error rather than that first write error: png.Encode still
runs for frame 0 after the failed write and its error preempts the
remembered sink error. -/
theorem encode_sink_cx_c6 :
    (EncodeAll codecErr badSink anim1).2.log = [(pngHeaderBytes, some 7)] ∧
    (EncodeAll codecErr badSink anim1).1 =
      ERes.err (GoErr.msg "apng: png encoding error(boom)") := by
  decide

set_option maxRecDepth 4096 in
/-- Witness for C6: a sink that accepts the 8-byte signature and fails the
IHDR header write with code 7; the failed attempt closes the log and the
call returns that sink error. -/
theorem encodeAll_sink_c6_witness :
    ([] : List (List Byte × Option Nat)) = [] ∧
    NoFail [(pngHeaderBytes, (none : Option Nat))] ∧
    (EncodeAll codecA failSink anim2).1 = ERes.err (GoErr.sink 7) :=
  encodeAll_sink_c6 codecA failSink anim2 [frameA, frameB] rfl rfl
    (by
      intro f hf
      refine ⟨standalonePNG ihdr13 [idatA], rfl, ?_⟩
      have hfe : fetchPNGChunk (standalonePNG ihdr13 [idatA]) =
          GoRes.ok { ihdr := ihdr13, idats := [idatA] } := by decide
      cases hf with
      | head => exact hfe
      | tail _ hf2 =>
        cases hf2 with
        | head => exact hfe
        | tail _ hf3 => cases hf3)
    (by decide)
    [(pngHeaderBytes, none)] [] (writeUint32 13 ++ tagIHDR) 7
    (by decide)
